import Mathlib

/-!
Verification of the succinct diagnostic renderer (`error_reporter`).

This file gives a shallow embedding of the repository's core modules —
`styled_buffer.rs`, `compiler_message.rs` and `render_succinct.rs` — as
executable Lean definitions, together with theorems settling the frozen
claims about the natural-language specification.

The codemap collaborator (`codemap.rs` is declared by `src/lib.rs` but is
not part of the provided sources) is modelled from the spec's interface
contract (spec section 6): position lookup returns a file name, a 1-based
line and a 0-based character column, and line retrieval is by 0-based index
returning an optional line text.

Rust naming is kept where the development environment allows it; the Rust
type `Annotation` is embedded as `Annot` and annotation-valued variables
are named `ann` (a constraint of the development format, not a semantic
change).
-/

set_option linter.unusedVariables false
set_option maxRecDepth 100000

namespace ErrorReporter

/-- Diagnostic levels, from `styled_buffer.rs` (`enum Level`). -/
inductive Level where
  | Bug
  | Fatal
  | PhaseFatal
  | Error
  | Warning
  | Note
  | Help
  | Cancelled
deriving DecidableEq, Repr

/-- Cell styles, from `styled_buffer.rs` (`enum Style`). -/
inductive Style where
  | HeaderMsg
  | FileNameStyle
  | LineAndColumn
  | LineNumber
  | Quotation
  | UnderlinePrimary
  | UnderlineSecondary
  | LabelPrimary
  | LabelSecondary
  | OldSchoolNoteText
  | OldSchoolNote
  | NoStyle
  | ErrorCode
  | Level (l : Level)
deriving DecidableEq, Repr

/-- One contiguous run of same-style text, from `styled_buffer.rs`
(`struct StyledString`). -/
structure StyledString where
  text : String
  style : Style
deriving DecidableEq, Repr

/-- The 2-D styled canvas, from `styled_buffer.rs` (`struct StyledBuffer`):
parallel per-row vectors of characters and styles. -/
structure StyledBuffer where
  text : List (List Char)
  styles : List (List Style)
deriving DecidableEq, Repr

/-- `Level::to_string` from `styled_buffer.rs`. The `Cancelled` arm of the
Rust `match` is `panic!(...)`; the panic is embedded as `none`. -/
def Level.toStringOpt : Level → Option String
  | .Bug => some "error: internal compiler error"
  | .Fatal => some "error"
  | .PhaseFatal => some "error"
  | .Error => some "error"
  | .Warning => some "warning"
  | .Note => some "note"
  | .Help => some "help"
  | .Cancelled => none

/-- `StyledBuffer::new`. -/
def StyledBuffer.new : StyledBuffer := ⟨[], []⟩

/-- `StyledBuffer::ensure_lines`: push empty rows (to both vectors) while
`line >= text.len()`. -/
def StyledBuffer.ensure_lines (b : StyledBuffer) (line : Nat) : StyledBuffer :=
  { text := b.text ++ List.replicate ((line + 1) - b.text.length) [],
    styles := b.styles ++ List.replicate ((line + 1) - b.text.length) [] }

/-- The padding characters chosen by `StyledBuffer::putc`'s extension loop:
for each column in `[start, start+cnt)`, a tab if the first row's cell at
that column is a tab, else a space. -/
def padChars (row0 : List Char) (start cnt : Nat) : List Char :=
  (List.range' start cnt).map fun i =>
    match row0.get? i with
    | some '\t' => '\t'
    | _ => ' '

/-- `StyledBuffer::putc`: overwrite the cell if it exists, otherwise pad the
row out to `col` (reading the first row to choose tab/space padding) and
push the new cell.  When `line = 0` the Rust loop reads the very row it is
extending, at indices at or past its current end, so the reads return
`None` and a space is used; reading the pre-extension first row (as done
here) yields the same characters. -/
def StyledBuffer.putc (b : StyledBuffer) (line col : Nat) (chr : Char) (style : Style) :
    StyledBuffer :=
  let b := b.ensure_lines line
  let row := b.text.getD line []
  let srow := b.styles.getD line []
  if col < row.length then
    { text := b.text.set line (row.set col chr),
      styles := b.styles.set line (srow.set col style) }
  else
    let pad := padChars (b.text.getD 0 []) row.length (col - row.length)
    { text := b.text.set line (row ++ pad ++ [chr]),
      styles := b.styles.set line (srow ++ List.replicate (col - row.length) Style.NoStyle ++ [style]) }

/-- The character loop of `StyledBuffer::puts`: write each character at
successive columns. -/
def putsList (b : StyledBuffer) (line : Nat) (col : Nat) (cs : List Char) (style : Style) :
    StyledBuffer :=
  match cs with
  | [] => b
  | c :: rest => putsList (b.putc line col c style) line (col + 1) rest style

/-- `StyledBuffer::puts`. -/
def StyledBuffer.puts (b : StyledBuffer) (line col : Nat) (s : String) (style : Style) :
    StyledBuffer :=
  putsList b line col s.data style

/-- `StyledBuffer::set_style`: rewrite a style cell only when it exists. -/
def StyledBuffer.set_style (b : StyledBuffer) (line col : Nat) (style : Style) : StyledBuffer :=
  if line < b.styles.length ∧ col < (b.styles.getD line []).length then
    { b with styles := b.styles.set line ((b.styles.getD line []).set col style) }
  else b

/-- `StyledBuffer::prepend`: shift a row right by the string's byte length
(spaces / `NoStyle`), then write the string at column 0. -/
def StyledBuffer.prepend (b : StyledBuffer) (line : Nat) (s : String) (style : Style) :
    StyledBuffer :=
  let b := b.ensure_lines line
  let n := s.utf8ByteSize
  let b : StyledBuffer :=
    { text := b.text.set line (List.replicate n ' ' ++ b.text.getD line []),
      styles := b.styles.set line (List.replicate n Style.NoStyle ++ b.styles.getD line []) }
  b.puts line 0 s style

/-- `StyledBuffer::append`: write after the row's last occupied column, or at
column 0 when the row does not exist yet. -/
def StyledBuffer.append (b : StyledBuffer) (line : Nat) (s : String) (style : Style) :
    StyledBuffer :=
  if line ≥ b.text.length then b.puts line 0 s style
  else b.puts line (b.text.getD line []).length s style

/-- `StyledBuffer::num_lines`. -/
def StyledBuffer.num_lines (b : StyledBuffer) : Nat := b.text.length

/-- The row-compaction loop of `StyledBuffer::render`: walk the zipped
(char, style) cells keeping the current run, flushing it (when non-empty)
at each style change. -/
def renderRowGo : List (Char × Style) → Style → List Char → List StyledString
  | [], cur, txt => if txt.isEmpty then [] else [⟨String.mk txt, cur⟩]
  | (c, s) :: rest, cur, txt =>
    if s = cur then renderRowGo rest cur (txt ++ [c])
    else if txt.isEmpty then renderRowGo rest s [c]
    else ⟨String.mk txt, cur⟩ :: renderRowGo rest s [c]

/-- One row of `StyledBuffer::render`: the run state starts at `NoStyle`
with an empty current run. -/
def renderRow (cells : List (Char × Style)) : List StyledString :=
  renderRowGo cells Style.NoStyle []

/-- `StyledBuffer::render`: compact every row, in row order. -/
def StyledBuffer.render (b : StyledBuffer) : List (List StyledString) :=
  (b.text.zip b.styles).map fun rc => renderRow (rc.1.zip rc.2)

/-- `StyledBuffer::putc` with every unguarded Rust index (`text[line]`,
`styles[line]`, `text[0]`, and the write `styles[line][col]`) made an
explicit `Option` failure, so a `none` marks exactly where the Rust code
would panic. -/
def putcChecked (b : StyledBuffer) (line col : Nat) (chr : Char) (style : Style) :
    Option StyledBuffer := do
  let b := b.ensure_lines line
  let row ← b.text.get? line
  let srow ← b.styles.get? line
  if col < row.length then
    if col < srow.length then
      some { text := b.text.set line (row.set col chr),
             styles := b.styles.set line (srow.set col style) }
    else none
  else do
    let row0 ← b.text.get? 0
    some { text := b.text.set line (row ++ padChars row0 row.length (col - row.length) ++ [chr]),
           styles := b.styles.set line (srow ++ List.replicate (col - row.length) Style.NoStyle ++ [style]) }

/-- The character loop of `StyledBuffer::puts`, over `putcChecked`. -/
def putsListChecked (b : StyledBuffer) (line : Nat) (col : Nat) (cs : List Char) (style : Style) :
    Option StyledBuffer :=
  match cs with
  | [] => some b
  | c :: rest => do
    let b ← putcChecked b line col c style
    putsListChecked b line (col + 1) rest style

/-- `StyledBuffer::puts` with panics made explicit. -/
def putsChecked (b : StyledBuffer) (line col : Nat) (s : String) (style : Style) :
    Option StyledBuffer :=
  putsListChecked b line col s.data style

/-- `StyledBuffer::set_style` with panics made explicit (its bounds test
guards every index, so it never fails). -/
def set_styleChecked (b : StyledBuffer) (line col : Nat) (style : Style) :
    Option StyledBuffer :=
  some (b.set_style line col style)

/-- `StyledBuffer::prepend` with every unguarded Rust index made an explicit
`Option` failure. -/
def prependChecked (b : StyledBuffer) (line : Nat) (s : String) (style : Style) :
    Option StyledBuffer := do
  let b := b.ensure_lines line
  let row ← b.text.get? line
  let srow ← b.styles.get? line
  let n := s.utf8ByteSize
  let b : StyledBuffer :=
    { text := b.text.set line (List.replicate n ' ' ++ row),
      styles := b.styles.set line (List.replicate n Style.NoStyle ++ srow) }
  putsChecked b line 0 s style

/-- `StyledBuffer::append` with panics made explicit: its `text[line].len()`
read is guarded by the branch, the rest is `puts`. -/
def appendChecked (b : StyledBuffer) (line : Nat) (s : String) (style : Style) :
    Option StyledBuffer :=
  if line ≥ b.text.length then putsChecked b line 0 s style
  else putsChecked b line (b.text.getD line []).length s style

/-- Row alignment invariant of a styled buffer: the two vectors have the
same number of rows and each pair of rows has the same length.  `new`
establishes it and every operation preserves it; Rust's private fields make
these the only reachable states. -/
def alignedB : List (List Char) → List (List Style) → Bool
  | [], [] => true
  | r :: rt, s :: st => (r.length == s.length) && alignedB rt st
  | _, _ => false

/-- Alignment of a buffer, as a proposition. -/
@[reducible]
def aligned (b : StyledBuffer) : Prop := alignedB b.text b.styles = true

/-! ### The codemap collaborator, modelled from the spec -/

/-- Modelled from the spec: the codemap's file object (spec sections 1 and
6; `codemap.rs` is declared by `src/lib.rs` but is not among the provided
sources).  A file has a name and its lines, retrievable by 0-based index. -/
structure FileMap where
  name : String
  lines : List String
deriving DecidableEq, Repr

/-- Modelled from the spec: `get_line_text(file, zero_based_line_index) ->
Option<text>` (spec section 6). -/
def FileMap.get_line (f : FileMap) (idx : Nat) : Option String :=
  f.lines.get? idx

/-- Modelled from the spec: the result of `lookup_position(byte_offset)`:
a file, a 1-based line and a 0-based character column (spec section 6). -/
structure Loc where
  file : FileMap
  line : Nat
  col : Nat
deriving Repr

/-- Modelled from the spec: the codemap collaborator, reduced to its
position-lookup interface (spec section 6). -/
structure Codemap where
  lookup : Nat → Loc

/-- `lookup_char_pos` of the codemap, applied to a span endpoint. -/
def Codemap.lookup_char_pos (cm : Codemap) (pos : Nat) : Loc := cm.lookup pos

/-! ### The diagnostic message, from `compiler_message.rs` -/

/-- A span: a half-open byte range (`codemap::Span`, used by
`compiler_message.rs`); the unused `expn_id` field is dropped. -/
structure Span where
  lo : Nat
  hi : Nat
deriving DecidableEq, Repr

/-- One annotation request (`codemap::SpanLabel` as used by
`compiler_message.rs`). -/
structure SpanLabel where
  span : Span
  is_primary : Bool
  label : Option String
deriving DecidableEq, Repr

/-- The diagnostic, from `compiler_message.rs` (`struct CompilerMessage`). -/
structure CompilerMessage where
  level : Level
  primary_span : Span
  primary_msg : String
  span_labels : List SpanLabel
  notes : List String
  error_code : Option String
  cm : Codemap

/-- `CompilerMessage::new`. -/
def CompilerMessage.new (level : Level) (msg : String) (primary_span : Span)
    (error_code : Option String) (cm : Codemap) : CompilerMessage :=
  { level := level, primary_span := primary_span, primary_msg := msg,
    error_code := error_code, span_labels := [], notes := [], cm := cm }

/-- `CompilerMessage::span_label`: the `is_primary` flag is span equality
with the diagnostic's primary span. -/
def CompilerMessage.span_label (m : CompilerMessage) (span : Span) (label : Option String) :
    CompilerMessage :=
  { m with span_labels := m.span_labels ++
      [{ span := span, is_primary := decide (span = m.primary_span), label := label }] }

/-- `CompilerMessage::note`. -/
def CompilerMessage.note (m : CompilerMessage) (n : String) : CompilerMessage :=
  { m with notes := m.notes ++ [n] }

/-! ### The renderer, from `render_succinct.rs` -/

/-- A label projected onto one line, from `render_succinct.rs`
(`struct Annotation`; embedded under the name `Annot`). -/
structure Annot where
  start_col : Nat
  end_col : Nat
  is_primary : Bool
  is_minimized : Bool
  label : Option String
deriving DecidableEq, Repr

/-- One source line's annotations, from `render_succinct.rs`
(`struct Line`). -/
structure Line where
  line_number : Nat
  annotations : List Annot
deriving DecidableEq, Repr

/-- One file's annotated lines, from `render_succinct.rs`
(`struct FileWithAnnotatedLines`). -/
structure FileWithAnnotatedLines where
  file : FileMap
  lines : List Line
deriving DecidableEq, Repr

/-- `check_old_school` from `render_succinct.rs`: always false. -/
def check_old_school : Bool := false

/-- Rust's derived `Ord` on `bool`: `false < true`. -/
def boolCmp : Bool → Bool → Ordering
  | false, true => .lt
  | true, false => .gt
  | _, _ => .eq

/-- Rust's derived `Ord` on `Option<String>`: `None` before `Some`,
`Some` compared by the inner strings. -/
def optStrCmp : Option String → Option String → Ordering
  | none, none => .eq
  | none, some _ => .lt
  | some _, none => .gt
  | some a, some b => compare a b

/-- Rust's derived `Ord` on `Annotation`: lexicographic in field order
`(start_col, end_col, is_primary, is_minimized, label)`. -/
def annCmp (a b : Annot) : Ordering :=
  (compare a.start_col b.start_col).then <|
    (compare a.end_col b.end_col).then <|
      (boolCmp a.is_primary b.is_primary).then <|
        (boolCmp a.is_minimized b.is_minimized).then (optStrCmp a.label b.label)

/-- Rust's derived `Ord` on `Vec<Annotation>`: lexicographic, shorter
prefix first. -/
def annListCmp : List Annot → List Annot → Ordering
  | [], [] => .eq
  | [], _ :: _ => .lt
  | _ :: _, [] => .gt
  | a :: ta, b :: tb => (annCmp a b).then (annListCmp ta tb)

/-- Rust's derived `Ord` on `Line`: `(line_number, annotations)`
lexicographically. -/
def lineCmp (a b : Line) : Ordering :=
  (compare a.line_number b.line_number).then (annListCmp a.annotations b.annotations)

/-- Stable insertion of one element into a sorted list: the element goes
after every element it does not strictly precede. -/
def insertByCmp (cmp : α → α → Ordering) (x : α) : List α → List α
  | [] => [x]
  | y :: rest => if cmp x y ≠ .gt then x :: y :: rest else y :: insertByCmp cmp x rest

/-- A stable sort (insertion sort), producing the same list as Rust's
stable `sort` for the total orders used here. -/
def sortByCmp (cmp : α → α → Ordering) (l : List α) : List α :=
  l.foldr (insertByCmp cmp) []

/-- `overlaps` from `render_succinct.rs`: two annotations overlap iff either
one's `start_col` lies in the other's half-open column range. -/
def overlaps (a1 a2 : Annot) : Bool :=
  (a2.start_col ≤ a1.start_col && a1.start_col < a2.end_col) ||
  (a1.start_col ≤ a2.start_col && a2.start_col < a1.end_col)

/-- `add_annotation_to_file` from `render_succinct.rs`: the inner search for
an existing `Line`, pushing the annotation onto the first line with the
given number (`none` when there is no such line). -/
def pushToLine (lines : List Line) (line_number : Nat) (ann : Annot) : Option (List Line) :=
  match lines with
  | [] => none
  | l :: rest =>
    if l.line_number = line_number then
      some ({ l with annotations := l.annotations ++ [ann] } :: rest)
    else (pushToLine rest line_number ann).map (l :: ·)

/-- `add_annotation_to_file` from `render_succinct.rs`: find the file slot
by name and add the annotation to its line (sorting the line list after
creating a new line), or push a fresh file slot. -/
def add_annotation_to_file (file_vec : List FileWithAnnotatedLines) (file : FileMap)
    (line_number : Nat) (ann : Annot) : List FileWithAnnotatedLines :=
  match file_vec with
  | [] => [{ file := file, lines := [{ line_number := line_number, annotations := [ann] }] }]
  | slot :: rest =>
    if slot.file.name = file.name then
      (match pushToLine slot.lines line_number ann with
       | some ls => { slot with lines := ls }
       | none =>
         let sorted := sortByCmp lineCmp
           (slot.lines ++ [{ line_number := line_number, annotations := [ann] }])
         { slot with lines := sorted }) :: rest
    else slot :: add_annotation_to_file rest file line_number ann

/-- `preprocess_annotations` from `render_succinct.rs`.  Note that the
widened/minimized `(start_col, end_col)` pair is computed and then ignored:
the constructed record takes its columns from `lo.col` and `hi.col`. -/
def preprocess_annotations (msg : CompilerMessage) : List FileWithAnnotatedLines :=
  msg.span_labels.foldl
    (fun output sl =>
      let lo := msg.cm.lookup_char_pos sl.span.lo
      let hi := msg.cm.lookup_char_pos sl.span.hi
      let sem : Nat × Nat × Bool :=
        if lo.line ≠ hi.line then (lo.col, lo.col + 1, true) else (lo.col, hi.col, false)
      let start_col := sem.1
      let end_col := if start_col = sem.2.1 then sem.2.1 + 1 else sem.2.1
      let is_minimized := sem.2.2
      add_annotation_to_file output lo.file lo.line
        { start_col := lo.col, end_col := hi.col,
          is_primary := sl.is_primary, is_minimized := is_minimized,
          label := sl.label })
    []

/-- `get_max_line_num` from `render_succinct.rs`: the largest `hi` line over
all span labels. -/
def get_max_line_num (msg : CompilerMessage) : Nat :=
  msg.span_labels.foldl
    (fun mx sl =>
      let hi := msg.cm.lookup_char_pos sl.span.hi
      if hi.line > mx then hi.line else mx)
    0

/-- The gutter width `len_of_max_line_num` computed by `render_succinct`
(lines 60-61) and used for every file of the diagnostic. -/
def len_of_max_line_num (msg : CompilerMessage) : Nat :=
  (Nat.repr (get_max_line_num msg)).length

/-- The loop of `slice::binary_search_by` from the Rust standard library of
the repository's era (`base`/`lim` bisection); the fuel argument only bounds
the iteration count and is chosen large enough to never run out. -/
def bsGo (f : α → Ordering) (l : List α) : Nat → Nat → Nat → Except Nat Nat
  | 0, base, _ => .error base
  | fuel + 1, base, lim =>
    if lim = 0 then .error base
    else
      let ix := base + lim / 2
      match l.get? ix with
      | none => .error base
      | some x =>
        match f x with
        | .eq => .ok ix
        | .lt => bsGo f l fuel (ix + 1) ((lim - 1) / 2)
        | .gt => bsGo f l fuel base (lim / 2)

/-- `slice::binary_search_by`. -/
def binary_search_by (f : α → Ordering) (l : List α) : Except Nat Nat :=
  bsGo f l (l.length + 1) 0 l.length

/-- `Vec::swap` (for the in-bounds indices used here). -/
def listSwap (l : List α) (i j : Nat) : List α :=
  match l.get? i, l.get? j with
  | some a, some b => (l.set i b).set j a
  | _, _ => l

/-- The primary-file reorder of `render_succinct` (lines 63-68): binary
search `annotated_files` by file name for the primary location's file and
swap it to the front when found. -/
def reorderPrimaryFirst (annotated_files : List FileWithAnnotatedLines) (primary_lo : Loc) :
    List FileWithAnnotatedLines :=
  match binary_search_by (fun x => compare x.file.name primary_lo.file.name) annotated_files with
  | .ok pos => listSwap annotated_files 0 pos
  | .error _ => annotated_files

/-- The file order the renderer walks: preprocessed files with the primary
file swapped to the front. -/
def orderedAnnotatedFiles (msg : CompilerMessage) : List FileWithAnnotatedLines :=
  reorderPrimaryFirst (preprocess_annotations msg)
    (msg.cm.lookup_char_pos msg.primary_span.lo)

/-- The underline pass of `render_source_line` for one annotation (lines
307-355): a marker character per column of `[start_col, end_col)` on the row
below the source line, re-styling the source character itself when the
annotation is not minimized. -/
def underlineAnn (old_school : Bool) (line_offset width_offset : Nat) (buffer : StyledBuffer)
    (ann : Annot) : StyledBuffer :=
  (List.range' ann.start_col (ann.end_col - ann.start_col)).foldl
    (fun buffer p =>
      if old_school then
        buffer.putc (line_offset + 1) (width_offset + p)
          (if p = ann.start_col then '^' else '~')
          (if ann.is_primary then Style.UnderlinePrimary else Style.OldSchoolNote)
      else if ann.is_primary then
        let buffer := buffer.putc (line_offset + 1) (width_offset + p) '^' Style.UnderlinePrimary
        if !ann.is_minimized then
          buffer.set_style line_offset (width_offset + p) Style.UnderlinePrimary
        else buffer
      else
        let buffer := buffer.putc (line_offset + 1) (width_offset + p) '-' Style.UnderlineSecondary
        if !ann.is_minimized then
          buffer.set_style line_offset (width_offset + p) Style.UnderlineSecondary
        else buffer)
    buffer

/-- One vertical-connector row of the stacked-label loop (lines 439-455 of
`render_succinct.rs`): a `|` at the annotation's column and the gutter
marker. -/
def stackConnector (line_offset width_offset : Nat) (ann : Annot) (buffer : StyledBuffer)
    (idx : Nat) : StyledBuffer :=
  let buffer := buffer.putc (line_offset + idx) (width_offset + ann.start_col) '|'
    (if ann.is_primary then Style.UnderlinePrimary else Style.UnderlineSecondary)
  buffer.puts (line_offset + idx) (width_offset - 2) "|>" Style.LineNumber

/-- One iteration of the stacked-label loop, for the enumerated annotation
`ia` out of `m` remaining labeled annotations. -/
def stackStep (line_offset width_offset m : Nat) (buffer : StyledBuffer) (ia : Nat × Annot) :
    StyledBuffer :=
  let index := ia.1
  let ann := ia.2
  let comes_after := m - index - 1
  let blank_lines := 3 + comes_after
  let buffer :=
    (List.range' 2 (blank_lines - 2)).foldl (stackConnector line_offset width_offset ann) buffer
  let buffer :=
    if ann.is_primary then
      buffer.puts (line_offset + blank_lines) (width_offset + ann.start_col)
        (ann.label.getD "") Style.LabelPrimary
    else
      buffer.puts (line_offset + blank_lines) (width_offset + ann.start_col)
        (ann.label.getD "") Style.LabelSecondary
  buffer.puts (line_offset + blank_lines) (width_offset - 2) "|>" Style.LineNumber

/-- The stacked-label loop of `render_source_line` (lines 430-472): the
`k`-th of `m` remaining labeled annotations draws its vertical connectors on
the rows `line_offset + 2 .. line_offset + blank_lines - 1` and its label on
row `line_offset + blank_lines`, where `blank_lines = 3 + (m - k - 1)`. -/
def stackLabels (line_offset width_offset : Nat) (buffer : StyledBuffer)
    (labeled_anns : List Annot) : StyledBuffer :=
  labeled_anns.enum.foldl (stackStep line_offset width_offset labeled_anns.length) buffer

/-- The label-placement phase of `render_source_line` (lines 406-472),
entered with the labeled annotations known non-empty: try to append the last
labeled annotation's text inline on the underline row when nothing else
overlaps it, then stack the remaining labels below.  (`split_last().unwrap()`
cannot fail on the non-empty list; the `none` arm is unreachable.) -/
def labelPhase (line_offset width_offset : Nat) (buffer : StyledBuffer)
    (labeled_anns unlabeled_anns : List Annot) : StyledBuffer :=
  match labeled_anns.getLast? with
  | none => buffer
  | some last =>
    let previous := labeled_anns.dropLast
    let step : StyledBuffer × List Annot :=
      if (previous ++ unlabeled_anns).all (fun a => !overlaps a last) then
        let highlight_label := " " ++ last.label.getD ""
        let buffer :=
          if last.is_primary then
            buffer.append (line_offset + 1) highlight_label Style.LabelPrimary
          else
            buffer.append (line_offset + 1) highlight_label Style.LabelSecondary
        (buffer, previous)
      else (buffer, labeled_anns)
    let buffer := step.1
    let labeled_anns := step.2
    if labeled_anns.isEmpty then buffer
    else stackLabels line_offset width_offset buffer labeled_anns

/-- `render_source_line` from `render_succinct.rs`: the quoted source line
with its gutter, the underline row, and the label placement. -/
def render_source_line (msg : CompilerMessage) (buffer : StyledBuffer) (file : FileMap)
    (line : Line) (width_offset : Nat) : StyledBuffer :=
  let source_string := (file.get_line (line.line_number - 1)).getD ""
  let line_offset := buffer.num_lines
  let buffer := buffer.puts line_offset width_offset source_string Style.Quotation
  let buffer := buffer.puts line_offset 0 (Nat.repr line.line_number) Style.LineNumber
  let buffer := buffer.puts line_offset (width_offset - 2) "|>" Style.LineNumber
  if line.annotations.isEmpty then buffer
  else
    let old_school := check_old_school
    let anns := sortByCmp annCmp line.annotations
    let buffer := anns.foldl (underlineAnn old_school line_offset width_offset) buffer
    let buffer := buffer.puts (line_offset + 1) (width_offset - 2) "|>" Style.LineNumber
    let parts := anns.partition (fun a => a.label.isSome)
    let labeled_anns := parts.1
    let unlabeled_anns := parts.2
    if labeled_anns.isEmpty then buffer
    else if old_school then buffer
    else labelPhase line_offset width_offset buffer labeled_anns unlabeled_anns

/-- The gap handling between one annotated line and the next (lines 121-150
of `render_succinct`): an elision row for gaps of more than two lines, the
single skipped line verbatim for a gap of exactly two, nothing otherwise. -/
def gapStep (file : FileMap) (len_of_max : Nat) (cur : Line) (next : Option Line)
    (buffer : StyledBuffer) : StyledBuffer :=
  match next with
  | none => buffer
  | some nextLine =>
    let line_idx_delta := nextLine.line_number - cur.line_number
    if line_idx_delta > 2 then
      buffer.puts buffer.num_lines 0 "..." Style.LineNumber
    else if line_idx_delta = 2 then
      let unannotated_line := (file.get_line cur.line_number).getD ""
      let last_buffer_line_num := buffer.num_lines
      let buffer := buffer.puts last_buffer_line_num 0
        (Nat.repr (nextLine.line_number - 1)) Style.LineNumber
      let buffer := buffer.puts last_buffer_line_num (1 + len_of_max) "|>" Style.LineNumber
      buffer.puts last_buffer_line_num (3 + len_of_max) unannotated_line Style.Quotation
    else buffer

/-- The per-file line loop of `render_succinct` (lines 115-151): render each
annotated line, then the gap handling against the next annotated line. -/
def renderLines (msg : CompilerMessage) (file : FileMap) (len_of_max : Nat) :
    List Line → StyledBuffer → StyledBuffer
  | [], buffer => buffer
  | line :: rest, buffer =>
    let buffer := render_source_line msg buffer file line (3 + len_of_max)
    let buffer := gapStep file len_of_max line rest.head? buffer
    renderLines msg file len_of_max rest buffer

/-- The `for i in 0..len_of_max_line_num` spacing loop: prepend one space
`len` times. -/
def prependSpaces (buffer : StyledBuffer) (line : Nat) : Nat → StyledBuffer
  | 0 => buffer
  | k + 1 => prependSpaces (buffer.prepend line " " Style.NoStyle) line k

/-- One file's block of `render_succinct` (lines 71-152): the location line
(`--> file:line:col` for the primary file, `::: file` otherwise), a gutter
spacer, then the annotated lines. -/
def renderFile (msg : CompilerMessage) (primary_lo : Loc) (len_of_max : Nat)
    (buffer : StyledBuffer) (annotated_file : FileWithAnnotatedLines) : StyledBuffer :=
  let is_primary := primary_lo.file.name = annotated_file.file.name
  let buffer :=
    if is_primary then
      let buffer_msg_line_offset := buffer.num_lines
      let buffer := buffer.prepend buffer_msg_line_offset "--> " Style.LineNumber
      let loc := msg.cm.lookup_char_pos msg.primary_span.lo
      let buffer := buffer.append buffer_msg_line_offset
        (loc.file.name ++ ":" ++ Nat.repr loc.line ++ ":" ++ Nat.repr loc.col)
        Style.LineAndColumn
      prependSpaces buffer buffer_msg_line_offset len_of_max
    else
      let buffer_msg_line_offset := buffer.num_lines
      let buffer := buffer.puts buffer_msg_line_offset (len_of_max + 1) "|>" Style.LineNumber
      let buffer := buffer.prepend (buffer_msg_line_offset + 1) "::: " Style.LineNumber
      let buffer := buffer.append (buffer_msg_line_offset + 1) annotated_file.file.name
        Style.LineAndColumn
      prependSpaces buffer (buffer_msg_line_offset + 1) len_of_max
  let buffer_msg_line_offset := buffer.num_lines
  let buffer := buffer.puts buffer_msg_line_offset (len_of_max + 1) "|>" Style.LineNumber
  renderLines msg annotated_file.file len_of_max annotated_file.lines buffer

/-- The trailing-notes section of `render_succinct` (lines 154-169). -/
def renderNotes (msg : CompilerMessage) (len_of_max : Nat) (buffer : StyledBuffer) :
    StyledBuffer :=
  let buffer :=
    if msg.notes.isEmpty then buffer
    else buffer.puts buffer.num_lines (len_of_max + 1) "|>" Style.LineNumber
  msg.notes.foldl
    (fun buffer note =>
      let last_buffer_line_num := buffer.num_lines
      let buffer := buffer.puts last_buffer_line_num (1 + len_of_max) "=> " Style.LineNumber
      let buffer := buffer.append last_buffer_line_num "note: " (Style.Level Level.Note)
      buffer.append last_buffer_line_num note Style.NoStyle)
    buffer

/-- `render_succinct` from `render_succinct.rs`.  `Level::to_string` panics
on `Cancelled`; the panic is embedded as `none`. -/
def render_succinct (msg : CompilerMessage) : Option (List (List StyledString)) := do
  let buffer := StyledBuffer.new
  let levelStr ← msg.level.toStringOpt
  let buffer := buffer.append 0 levelStr (Style.Level msg.level)
  let buffer := buffer.append 0 ": " Style.HeaderMsg
  let buffer := buffer.append 0 msg.primary_msg Style.HeaderMsg
  let len_of_max := len_of_max_line_num msg
  let primary_lo := msg.cm.lookup_char_pos msg.primary_span.lo
  let annotated_files := orderedAnnotatedFiles msg
  let buffer := annotated_files.foldl (renderFile msg primary_lo len_of_max) buffer
  let buffer := renderNotes msg len_of_max buffer
  some buffer.render

/-- `make_string` from `src/lib.rs`: flatten the rendered rows, appending a
newline per row. -/
def make_string (lines : List (List StyledString)) : String :=
  String.join (lines.map fun rl => String.join (rl.map (·.text)) ++ "\n")

/-! ### Concrete codemaps for the fixtures, modelled from the spec -/

/-- Modelled from the spec: splitting a file's text into lines, as the
codemap's `new_filemap_and_lines` must to support 0-based line retrieval. -/
def splitLinesGo : List Char → List Char → List String
  | [], cur => [String.mk cur.reverse]
  | '\n' :: rest, cur => String.mk cur.reverse :: splitLinesGo rest []
  | c :: rest, cur => splitLinesGo rest (c :: cur)

/-- Modelled from the spec: the lines of a file text. -/
def splitLines (s : String) : List String := splitLinesGo s.data []

/-- Modelled from the spec: resolve a character offset within a list of
lines to a `(1-based line, 0-based column)` pair; each line contributes its
characters plus one newline. -/
def lookupScan : List String → Nat → Nat → Nat × Nat
  | [], ln, off => (ln, off)
  | s :: rest, ln, off =>
    if off ≤ s.length then (ln, off)
    else lookupScan rest (ln + 1) (off - (s.length + 1))

/-- Modelled from the spec: a single-file codemap whose `lookup_position`
scans the file's lines (spec section 6: 1-based line, 0-based character
column). -/
def mkCodemap (file : FileMap) : Codemap :=
  ⟨fun off =>
    let lc := lookupScan file.lines 1 off
    { file := file, line := lc.1, col := lc.2 }⟩

/-- `str::find` (leftmost occurrence of a substring), as used by
`span_substr` in `src/lib.rs`. -/
def strFindGo (needle : List Char) : List Char → Nat → Option Nat
  | [], i => if needle.isEmpty then some i else none
  | c :: rest, i =>
    if needle.isPrefixOf (c :: rest) then some i else strFindGo needle rest (i + 1)

/-- The search loop of `span_substr` from `src/lib.rs`: advance past `k`
occurrences of the substring, then return the span of the next one
(`none` embeds the panic when there are not enough occurrences). -/
def spanSubstrGo (src sub : List Char) : Nat → Nat → Option Span
  | hi, 0 =>
    match strFindGo sub (src.drop hi) 0 with
    | none => none
    | some offset => some { lo := hi + offset, hi := hi + offset + sub.length }
  | hi, k + 1 =>
    match strFindGo sub (src.drop hi) 0 with
    | none => none
    | some offset => spanSubstrGo src sub (hi + offset + sub.length) k

/-- `span_substr` from `src/lib.rs` (with the file's `start_pos` at 0). -/
def span_substr (source_text substring : String) (n : Nat) : Option Span :=
  spanSubstrGo source_text.data substring.data 0 n

/-- The concatenation of the texts of a row's runs, as character lists. -/
def joinRunTexts (rs : List StyledString) : List Char :=
  rs.foldr (fun r acc => r.text.data ++ acc) []

/-- Whether every two consecutive runs of a row have different styles. -/
def consecutiveStylesDiffer : List StyledString → Bool
  | [] => true
  | [_] => true
  | a :: b :: rest => (decide (a.style ≠ b.style)) && consecutiveStylesDiffer (b :: rest)

/-! ### The spec-side definition for the gutter width claim -/

/-- The spec's "highest line number touched by any annotation, across all
files": a span label touches every line from its `lo` line to its `hi`
line, so the highest line it touches is the larger of the two. -/
def maxTouchedLineSpec (msg : CompilerMessage) : Nat :=
  msg.span_labels.foldl
    (fun mx sl =>
      max mx (max (msg.cm.lookup_char_pos sl.span.lo).line
        (msg.cm.lookup_char_pos sl.span.hi).line))
    0

/-! ### Fixtures -/

/-- A trivial codemap for diagnostics whose spans are never resolved. -/
def cmTrivial : Codemap :=
  ⟨fun _ => { file := { name := "", lines := [] }, line := 1, col := 0 }⟩

/-- The `test_ellipsis` file text from `src/lib.rs`. -/
def fileTextEllipsis : String :=
  "\nfn foo() \x7b\n    //blah blah\n    //blah blah\n    vec.pop();\n    //blah blah\n    //blah blah\n    //blah blah\n    //blah blah\n    //blah blah\n    //blah blah\n    //blah blah\n    //blah blah\n    //blah blah\n    vec.push(vec.pop().unwrap());\n\x7d\n"

/-- The `test_ellipsis` file. -/
def fooFileEllipsis : FileMap := { name := "foo.rs", lines := splitLines fileTextEllipsis }

/-- The `test_ellipsis` codemap. -/
def cmEllipsis : Codemap := mkCodemap fooFileEllipsis

/-- `span_vec1` of `test_ellipsis`: occurrence 0 of `vec`. -/
def spanVec1E : Span := (span_substr fileTextEllipsis "vec" 0).getD { lo := 0, hi := 0 }

/-- `span_vec0` of `test_ellipsis`: occurrence 1 of `vec` (the primary). -/
def spanVec0E : Span := (span_substr fileTextEllipsis "vec" 1).getD { lo := 0, hi := 0 }

/-- The `test_ellipsis` diagnostic. -/
def msgEllipsis : CompilerMessage :=
  ((CompilerMessage.new Level.Error "Unresolved name" spanVec0E (some "E123")
      cmEllipsis).span_label spanVec0E (some "primary message")).span_label
    spanVec1E (some "secondary message")

/-- What the code actually renders for `test_ellipsis`. -/
def c6Actual : String :=
  "error: Unresolved name\n  --> foo.rs:15:4\n   |>\n5  |>    vec.pop();\n   |>    --- secondary message\n...\n15 |>    vec.push(vec.pop().unwrap());\n   |>    ^^^ primary message\n"

/-- The literal fixture `test_ellipsis` asserts (note the ` [E123]`). -/
def c6Fixture : String :=
  "error: Unresolved name [E123]\n  --> foo.rs:15:4\n   |>\n5  |>    vec.pop();\n   |>    --- secondary message\n...\n15 |>    vec.push(vec.pop().unwrap());\n   |>    ^^^ primary message\n"

/-- A file for the zero-width-span fixture. -/
def fileC1 : FileMap := { name := "foo.rs", lines := ["abcdefgh"] }

/-- A diagnostic with one zero-width span label (`lo = hi`, resolving to
line 1 column 6 twice). -/
def msgC1 : CompilerMessage :=
  (CompilerMessage.new Level.Error "zero width" { lo := 6, hi := 6 } none
      (mkCodemap fileC1)).span_label { lo := 6, hi := 6 } (some "expected caret here")

/-- A file for the multi-line-span fixture. -/
def fileC2 : FileMap := { name := "foo.rs", lines := ["ab", "cdefg", "hij"] }

/-- A diagnostic with one span label crossing lines: `lo` resolves to
(line 1, col 2) and `hi` to (line 2, col 5). -/
def msgC2 : CompilerMessage :=
  (CompilerMessage.new Level.Error "multi line" { lo := 2, hi := 8 } none
      (mkCodemap fileC2)).span_label { lo := 2, hi := 8 } (some "crosses lines")

/-- First file of the three-file fixture. -/
def fileA3 : FileMap := { name := "a.rs", lines := ["aaaa"] }

/-- Second file (by name; encountered last) of the three-file fixture. -/
def fileB3 : FileMap := { name := "b.rs", lines := ["bbbb"] }

/-- Third file (by name; encountered second) of the three-file fixture. -/
def fileC3file : FileMap := { name := "c.rs", lines := ["cccc"] }

/-- Modelled from the spec: a three-file codemap (offsets below 10 fall in
`a.rs`, below 20 in `c.rs`, the rest in `b.rs`). -/
def cmC3 : Codemap :=
  ⟨fun off =>
    if off < 10 then { file := fileA3, line := 1, col := off }
    else if off < 20 then { file := fileC3file, line := 1, col := off - 10 }
    else { file := fileB3, line := 1, col := off - 20 }⟩

/-- A diagnostic touching three files, the primary span in `b.rs`, the
files first encountered in the order `a.rs`, `c.rs`, `b.rs`. -/
def msgC3 : CompilerMessage :=
  (((CompilerMessage.new Level.Warning "three files" { lo := 20, hi := 21 } none
      cmC3).span_label { lo := 0, hi := 1 } (some "in a")).span_label
      { lo := 10, hi := 11 } (some "in c")).span_label { lo := 20, hi := 21 } (some "in b")

/-- First file of the two-file fixture. -/
def fileX3 : FileMap := { name := "x.rs", lines := ["xxxx"] }

/-- Second file of the two-file fixture; holds the primary span. -/
def fileY3 : FileMap := { name := "y.rs", lines := ["yyyy"] }

/-- Modelled from the spec: a two-file codemap (offsets below 10 fall in
`x.rs`, the rest in `y.rs`). -/
def cmXY : Codemap :=
  ⟨fun off =>
    if off < 10 then { file := fileX3, line := 1, col := off }
    else { file := fileY3, line := 1, col := off - 10 }⟩

/-- A diagnostic touching two files, the primary span in the file
encountered second. -/
def msgXY : CompilerMessage :=
  ((CompilerMessage.new Level.Warning "two files" { lo := 10, hi := 11 } none
      cmXY).span_label { lo := 0, hi := 1 } (some "in x")).span_label
    { lo := 10, hi := 11 } (some "in y")

/-- A diagnostic whose level is `Cancelled`. -/
def msgCancelled : CompilerMessage :=
  CompilerMessage.new Level.Cancelled "whatever" { lo := 0, hi := 0 } none cmTrivial

/-- A dummy diagnostic (the `msg` parameter of `render_source_line` is
unused by its body). -/
def msgDummy : CompilerMessage :=
  CompilerMessage.new Level.Error "dummy" { lo := 0, hi := 0 } none cmTrivial

/-- The file of the overlap fixture (the `span_overlap_label` shape from
the renderer's comment). -/
def fileC5 : FileMap := { name := "foo.rs", lines := ["fn foo(x: u32) \x7b"] }

/-- Unlabeled annotation `A` at columns `[0, 8)`. -/
def annA5 : Annot :=
  { start_col := 0, end_col := 8, is_primary := false, is_minimized := false, label := none }

/-- Labeled annotation `B` at columns `[7, 10)`. -/
def annB5 : Annot :=
  { start_col := 7, end_col := 10, is_primary := false, is_minimized := false,
    label := some "x_span" }

/-- The line carrying `A` and `B`. -/
def lineC5 : Line := { line_number := 1, annotations := [annA5, annB5] }

/-- The buffer produced by rendering the overlap fixture's line. -/
def c5Out : StyledBuffer := render_source_line msgDummy StyledBuffer.new fileC5 lineC5 5

/-- The file of the gap-elision witness. -/
def fileC4 : FileMap := { name := "foo.rs", lines := ["l1", "l2", "l3", "l4", "l5"] }

/-- A small aligned buffer for the compaction witness: two rows, the first
with a style change after its first character. -/
def bufC8 : StyledBuffer :=
  { text := [['a', 'b', 'c'], ['d']],
    styles := [[Style.NoStyle, Style.HeaderMsg, Style.HeaderMsg], [Style.LineNumber]] }

/-! ## Theorems -/

/-- C1: the preprocessor does NOT widen a zero-width span.  The widened
`end_col` is computed (lines 228-241 of `render_succinct.rs`) but the
`Annotation` is constructed from the raw `hi.col` (line 248), so a span
label with `lo = hi` (here both resolving to line 1, column 6) yields an
annotation with `start_col = end_col = 6` — `start_col < end_col` fails —
and the rendered output contains no caret or dash marker at all for the
span, contradicting the claim and the code's own comment ("we want to just
display a `^` at 6, so convert that to 6..7"). -/
theorem zero_width_span_not_widened :
    preprocess_annotations msgC1 =
      [{ file := fileC1,
         lines := [{ line_number := 1,
                     annotations := [{ start_col := 6, end_col := 6, is_primary := true,
                                       is_minimized := false,
                                       label := some "expected caret here" }] }] }] ∧
    (render_succinct msgC1).map make_string =
      some "error: zero width\n --> foo.rs:1:6\n  |>\n1 |>abcdefgh\n  |> expected caret here\n" ∧
    '^' ∉ "error: zero width\n --> foo.rs:1:6\n  |>\n1 |>abcdefgh\n  |> expected caret here\n".data := by
  refine ⟨by decide, by decide, by decide⟩

/-- C2: a multi-line span is NOT collapsed to `(lo.col, lo.col + 1)`.  The
minimized pair is computed (line 228-232 of `render_succinct.rs`) but the
`Annotation` takes `end_col` from `hi.col` on the other line (line 248): for
a span resolving to `lo = (line 1, col 2)`, `hi = (line 2, col 5)` the
annotation is `[2, 5)` with `is_minimized = true` — `end_col = 5`, not
`lo.col + 1 = 3` — and the renderer draws a three-column `^^^` marker
instead of the claimed single-character marker. -/
theorem multi_line_span_not_minimized :
    preprocess_annotations msgC2 =
      [{ file := fileC2,
         lines := [{ line_number := 1,
                     annotations := [{ start_col := 2, end_col := 5, is_primary := true,
                                       is_minimized := true,
                                       label := some "crosses lines" }] }] }] ∧
    (5 : Nat) ≠ 2 + 1 ∧
    (render_succinct msgC2).map make_string =
      some "error: multi line\n --> foo.rs:1:2\n  |>\n1 |>ab\n  |>  ^^^ crosses lines\n" := by
  refine ⟨by decide, by decide, by decide⟩

/-- C6: the end-to-end `test_ellipsis` fixture does NOT match the code's
output.  The renderer never writes the error code (the TODO at line 50 of
`render_succinct.rs`), so the header reads `error: Unresolved name` while
the test's literal fixture expects `error: Unresolved name [E123]`; every
other row (the `--> foo.rs:15:4` header, the secondary line with `---` and
its label, the `...` elision row, and the primary line with `^^^` and its
label) matches the fixture exactly. -/
theorem ellipsis_fixture_mismatch :
    (render_succinct msgEllipsis).map make_string = some c6Actual ∧
    c6Actual ≠ c6Fixture ∧
    spanVec0E = { lo := 207, hi := 210 } ∧
    spanVec1E = { lo := 48, hi := 51 } := by
  refine ⟨by decide, by decide, by decide, by decide⟩

/-- C3 counterexample: with three files, encountered in the order `a.rs`,
`c.rs`, `b.rs` and the primary span in `b.rs`, the binary search over the
(unsorted) file list misses `b.rs`, no swap happens, and `a.rs` — not the
primary file — is rendered first. -/
theorem primary_not_first_with_three_files :
    (preprocess_annotations msgC3).map (fun fw => fw.file.name) = ["a.rs", "c.rs", "b.rs"] ∧
    (msgC3.cm.lookup_char_pos msgC3.primary_span.lo).file.name = "b.rs" ∧
    (orderedAnnotatedFiles msgC3).head?.map (fun fw => fw.file.name) = some "a.rs" ∧
    "a.rs" ≠ "b.rs" := by
  refine ⟨by decide, by decide, by decide, by decide⟩

/-- C10: rendering a `Cancelled` diagnostic panics (embedded: returns
`none`) because the header line calls `Level::to_string`, whose `Cancelled`
arm is a `panic!`; every other level yields a fixed string — `Bug` renders
as `error: internal compiler error` and `Fatal`, `PhaseFatal` and `Error`
all render as `error`. -/
theorem render_cancelled_panics (msg : CompilerMessage) (h : msg.level = Level.Cancelled) :
    render_succinct msg = none ∧
    Level.toStringOpt Level.Bug = some "error: internal compiler error" ∧
    Level.toStringOpt Level.Fatal = some "error" ∧
    Level.toStringOpt Level.PhaseFatal = some "error" ∧
    Level.toStringOpt Level.Error = some "error" := by
  refine ⟨?_, rfl, rfl, rfl, rfl⟩
  simp [render_succinct, h, Level.toStringOpt]

/-- Witness for C10 at a concrete `Cancelled` diagnostic. -/
theorem render_cancelled_panics_witness :
    msgCancelled.level = Level.Cancelled ∧
    (render_succinct msgCancelled = none ∧
     Level.toStringOpt Level.Bug = some "error: internal compiler error" ∧
     Level.toStringOpt Level.Fatal = some "error" ∧
     Level.toStringOpt Level.PhaseFatal = some "error" ∧
     Level.toStringOpt Level.Error = some "error") :=
  ⟨rfl, render_cancelled_panics msgCancelled rfl⟩

/-! ### Styled-buffer helper lemmas -/

theorem ensure_lines_of_lt {b : StyledBuffer} {line : Nat} (h : line < b.text.length) :
    b.ensure_lines line = b := by
  simp [StyledBuffer.ensure_lines, Nat.sub_eq_zero_of_le h]

theorem ensure_lines_fresh (b : StyledBuffer) :
    b.ensure_lines b.text.length =
      { text := b.text ++ [[]], styles := b.styles ++ [[]] } := by
  simp [StyledBuffer.ensure_lines]

theorem getD_of_get? {l : List α} {i : Nat} {x : α} (h : l.get? i = some x) (d : α) :
    l.getD i d = x := by
  rw [List.getD_eq_get?, h]
  rfl

theorem lt_length_of_get? {l : List α} {i : Nat} {x : α} (h : l.get? i = some x) :
    i < l.length := by
  by_contra hc
  rw [List.get?_eq_none.mpr (Nat.le_of_not_lt hc)] at h
  exact Option.noConfusion h

theorem get?_of_lt_length {l : List α} {i : Nat} (h : i < l.length) (d : α) :
    l.get? i = some (l.getD i d) := by
  match hx : l.get? i with
  | some x => rw [getD_of_get? hx]
  | none => exact absurd (List.get?_eq_none.mp hx) (Nat.not_le_of_lt h)

theorem padChars_length (row0 : List Char) (s n : Nat) : (padChars row0 s n).length = n := by
  simp [padChars]

theorem padChars_mem {row0 : List Char} {s n : Nat} {c : Char} (h : c ∈ padChars row0 s n) :
    c = ' ' ∨ c = '\t' := by
  simp only [padChars, List.mem_map] at h
  obtain ⟨i, -, hi⟩ := h
  subst hi
  split
  · exact Or.inr rfl
  · exact Or.inl rfl

theorem putc_extend_get? {b : StyledBuffer} {u : Nat} {row : List Char}
    (h : b.text.get? u = some row) {col : Nat} (hcol : row.length ≤ col)
    (c : Char) (st : Style) (v : Nat) :
    (b.putc u col c st).text.get? v =
      if v = u then
        some (row ++ padChars (b.text.getD 0 []) row.length (col - row.length) ++ [c])
      else b.text.get? v := by
  have hu : u < b.text.length := lt_length_of_get? h
  simp only [StyledBuffer.putc, ensure_lines_of_lt hu, getD_of_get? h]
  rw [if_neg (by omega)]
  by_cases hv : v = u
  · subst hv
    rw [if_pos rfl, List.get?_set_eq, h]
    rfl
  · rw [if_neg hv, List.get?_set_ne _ _ (fun e => hv e.symm)]

theorem putc_extend_length {b : StyledBuffer} {u : Nat} {row : List Char}
    (h : b.text.get? u = some row) {col : Nat} (hcol : row.length ≤ col)
    (c : Char) (st : Style) :
    (b.putc u col c st).text.length = b.text.length := by
  have hu : u < b.text.length := lt_length_of_get? h
  simp only [StyledBuffer.putc, ensure_lines_of_lt hu, getD_of_get? h]
  rw [if_neg (by omega)]
  simp

theorem putc_append_get? {b : StyledBuffer} {u : Nat} {row : List Char}
    (h : b.text.get? u = some row) (c : Char) (st : Style) (v : Nat) :
    (b.putc u row.length c st).text.get? v =
      if v = u then some (row ++ [c]) else b.text.get? v := by
  have := putc_extend_get? h (Nat.le_refl row.length) c st v
  simpa [padChars] using this

theorem putsList_append_get? (cs : List Char) :
    ∀ (b : StyledBuffer) (u : Nat) (row : List Char), b.text.get? u = some row →
      ∀ (st : Style) (v : Nat),
        (putsList b u row.length cs st).text.get? v =
          if v = u then some (row ++ cs) else b.text.get? v := by
  induction cs with
  | nil =>
    intro b u row h st v
    show b.text.get? v = _
    by_cases hv : v = u
    · subst hv; rw [if_pos rfl, List.append_nil]; exact h
    · rw [if_neg hv]
  | cons c rest ih =>
    intro b u row h st v
    have hb' : (b.putc u row.length c st).text.get? u = some (row ++ [c]) := by
      rw [putc_append_get? h c st u, if_pos rfl]
    have hlen : (row ++ [c]).length = row.length + 1 := by simp
    have := ih (b.putc u row.length c st) u (row ++ [c]) hb' st v
    rw [hlen] at this
    show (putsList (b.putc u row.length c st) u (row.length + 1) rest st).text.get? v = _
    rw [this]
    by_cases hv : v = u
    · subst hv; simp
    · rw [if_neg hv, if_neg hv, putc_append_get? h c st v, if_neg hv]

theorem putsList_append_length (cs : List Char) :
    ∀ (b : StyledBuffer) (u : Nat) (row : List Char), b.text.get? u = some row →
      ∀ (st : Style),
        (putsList b u row.length cs st).text.length = b.text.length := by
  induction cs with
  | nil => intro b u row h st; rfl
  | cons c rest ih =>
    intro b u row h st
    have hb' : (b.putc u row.length c st).text.get? u = some (row ++ [c]) := by
      rw [putc_append_get? h c st u, if_pos rfl]
    have hlen : (row ++ [c]).length = row.length + 1 := by simp
    have := ih (b.putc u row.length c st) u (row ++ [c]) hb' st
    rw [hlen] at this
    show (putsList (b.putc u row.length c st) u (row.length + 1) rest st).text.length = _
    rw [this, putc_extend_length h (Nat.le_refl row.length) c st]

theorem putc_fresh0_get? (b : StyledBuffer) (c : Char) (st : Style) (v : Nat) :
    (b.putc b.text.length 0 c st).text.get? v =
      if v = b.text.length then some [c] else b.text.get? v := by
  have hrow : (b.text ++ [[]]).get? b.text.length = some ([] : List Char) :=
    List.get?_concat_length b.text []
  simp only [StyledBuffer.putc, ensure_lines_fresh]
  rw [getD_of_get? hrow]
  simp only [List.length_nil, Nat.lt_irrefl, if_false, padChars, List.range'_zero,
    List.map_nil, List.nil_append, List.append_nil]
  by_cases hv : v = b.text.length
  · subst hv
    simp [List.get?_set_eq, hrow]
  · rw [if_neg hv, List.get?_set_ne _ _ (fun e => hv e.symm)]
    rcases Nat.lt_or_ge v b.text.length with hlt | hge
    · exact List.get?_append hlt
    · have hgt : b.text.length < v := Nat.lt_of_le_of_ne hge (fun e => hv e.symm)
      rw [List.get?_eq_none.mpr, List.get?_eq_none.mpr]
      · omega
      · simp; omega

theorem putc_fresh0_length (b : StyledBuffer) (c : Char) (st : Style) :
    (b.putc b.text.length 0 c st).text.length = b.text.length + 1 := by
  have hrow : (b.text ++ [[]]).get? b.text.length = some ([] : List Char) :=
    List.get?_concat_length b.text []
  simp only [StyledBuffer.putc, ensure_lines_fresh]
  rw [getD_of_get? hrow]
  simp

theorem putsList_fresh_get? {cs : List Char} (hne : cs ≠ []) (b : StyledBuffer) (st : Style)
    (v : Nat) :
    (putsList b b.text.length 0 cs st).text.get? v =
      if v = b.text.length then some cs else b.text.get? v := by
  match cs, hne with
  | c :: rest, _ =>
    have h1 := putc_fresh0_get? b c st
    have hb' : (b.putc b.text.length 0 c st).text.get? b.text.length = some [c] := by
      rw [h1 b.text.length, if_pos rfl]
    have := putsList_append_get? rest (b.putc b.text.length 0 c st) b.text.length [c] hb' st v
    show (putsList (b.putc b.text.length 0 c st) b.text.length 1 rest st).text.get? v = _
    rw [show (1 : Nat) = ([c] : List Char).length from rfl, this]
    by_cases hv : v = b.text.length
    · subst hv; simp
    · rw [if_neg hv, if_neg hv, h1 v, if_neg hv]

theorem putsList_fresh_length {cs : List Char} (hne : cs ≠ []) (b : StyledBuffer) (st : Style) :
    (putsList b b.text.length 0 cs st).text.length = b.text.length + 1 := by
  match cs, hne with
  | c :: rest, _ =>
    have h1 := putc_fresh0_get? b c st
    have hb' : (b.putc b.text.length 0 c st).text.get? b.text.length = some [c] := by
      rw [h1 b.text.length, if_pos rfl]
    have := putsList_append_length rest (b.putc b.text.length 0 c st) b.text.length [c] hb' st
    show (putsList (b.putc b.text.length 0 c st) b.text.length 1 rest st).text.length = _
    rw [show (1 : Nat) = ([c] : List Char).length from rfl, this, putc_fresh0_length]
    simp

theorem ensure_get?_of_lt {b : StyledBuffer} {v : Nat} (line : Nat) (hv : v < b.text.length) :
    (b.ensure_lines line).text.get? v = b.text.get? v := by
  simp only [StyledBuffer.ensure_lines]
  exact List.get?_append hv

theorem putc_preserve {b : StyledBuffer} {line v : Nat} (hne : v ≠ line)
    (hv : v < b.text.length) (col : Nat) (c : Char) (st : Style) :
    (b.putc line col c st).text.get? v = b.text.get? v ∧
    b.text.length ≤ (b.putc line col c st).text.length := by
  constructor
  · simp only [StyledBuffer.putc]
    split
    · rw [List.get?_set_ne _ _ (fun e => hne e.symm)]
      exact ensure_get?_of_lt line hv
    · rw [List.get?_set_ne _ _ (fun e => hne e.symm)]
      exact ensure_get?_of_lt line hv
  · simp only [StyledBuffer.putc]
    split <;> simp [StyledBuffer.ensure_lines]

theorem putsList_preserve {line v : Nat} (hne : v ≠ line) (cs : List Char) :
    ∀ (b : StyledBuffer) (col : Nat) (st : Style), v < b.text.length →
      (putsList b line col cs st).text.get? v = b.text.get? v ∧
      b.text.length ≤ (putsList b line col cs st).text.length := by
  induction cs with
  | nil => intro b col st hv; exact ⟨rfl, Nat.le_refl _⟩
  | cons c rest ih =>
    intro b col st hv
    obtain ⟨h1, h2⟩ := putc_preserve hne hv col c st
    obtain ⟨ih1, ih2⟩ := ih (b.putc line col c st) (col + 1) st (Nat.lt_of_lt_of_le hv h2)
    exact ⟨ih1.trans h1, Nat.le_trans h2 ih2⟩

theorem puts_preserve {b : StyledBuffer} {line v : Nat} (hne : v ≠ line)
    (hv : v < b.text.length) (col : Nat) (s : String) (st : Style) :
    (b.puts line col s st).text.get? v = b.text.get? v ∧
    b.text.length ≤ (b.puts line col s st).text.length :=
  putsList_preserve hne s.data b col st hv

theorem set_style_text (b : StyledBuffer) (line col : Nat) (st : Style) :
    (b.set_style line col st).text = b.text := by
  simp only [StyledBuffer.set_style]
  split <;> rfl

theorem append_get?_of_lt {b : StyledBuffer} {u : Nat} {row : List Char}
    (h : b.text.get? u = some row) (s : String) (st : Style) (v : Nat) :
    (b.append u s st).text.get? v =
      if v = u then some (row ++ s.data) else b.text.get? v := by
  have hu : u < b.text.length := lt_length_of_get? h
  simp only [StyledBuffer.append]
  rw [if_neg (by omega), getD_of_get? h]
  exact putsList_append_get? s.data b u row h st v

theorem append_length_of_lt {b : StyledBuffer} {u : Nat} {row : List Char}
    (h : b.text.get? u = some row) (s : String) (st : Style) :
    (b.append u s st).text.length = b.text.length := by
  have hu : u < b.text.length := lt_length_of_get? h
  simp only [StyledBuffer.append]
  rw [if_neg (by omega), getD_of_get? h]
  exact putsList_append_length s.data b u row h st

theorem foldl_text_preserve {β : Type _} {v : Nat} (step : StyledBuffer → β → StyledBuffer)
    (l : List β)
    (h : ∀ (b : StyledBuffer) (x : β), x ∈ l → v < b.text.length →
      (step b x).text.get? v = b.text.get? v ∧ b.text.length ≤ (step b x).text.length) :
    ∀ b : StyledBuffer, v < b.text.length →
      (l.foldl step b).text.get? v = b.text.get? v ∧
      b.text.length ≤ (l.foldl step b).text.length := by
  induction l with
  | nil => intro b hv; exact ⟨rfl, Nat.le_refl _⟩
  | cons x xs ih =>
    intro b hv
    obtain ⟨h1, h2⟩ := h b x (List.mem_cons_self x xs) hv
    obtain ⟨ih1, ih2⟩ := ih (fun b y hy hvb => h b y (List.mem_cons_of_mem x hy) hvb)
      (step b x) (Nat.lt_of_lt_of_le hv h2)
    exact ⟨ih1.trans h1, Nat.le_trans h2 ih2⟩

theorem stackConnector_preserve {line_offset width_offset v : Nat} (hvr : v < line_offset + 2)
    (ann : Annot) (b : StyledBuffer) (idx : Nat) (hidx : 2 ≤ idx) (hv : v < b.text.length) :
    (stackConnector line_offset width_offset ann b idx).text.get? v = b.text.get? v ∧
    b.text.length ≤ (stackConnector line_offset width_offset ann b idx).text.length := by
  have hne : v ≠ line_offset + idx := by omega
  simp only [stackConnector]
  obtain ⟨h1, h2⟩ := putc_preserve hne hv (width_offset + ann.start_col) '|'
    (if ann.is_primary then Style.UnderlinePrimary else Style.UnderlineSecondary)
  obtain ⟨h3, h4⟩ := puts_preserve hne (Nat.lt_of_lt_of_le hv h2) (width_offset - 2) "|>"
    Style.LineNumber
  exact ⟨h3.trans h1, Nat.le_trans h2 h4⟩

theorem stackStep_preserve {line_offset width_offset m v : Nat} (hvr : v < line_offset + 2)
    (b : StyledBuffer) (ia : Nat × Annot) (hv : v < b.text.length) :
    (stackStep line_offset width_offset m b ia).text.get? v = b.text.get? v ∧
    b.text.length ≤ (stackStep line_offset width_offset m b ia).text.length := by
  have hbl : 3 ≤ 3 + (m - ia.1 - 1) := by omega
  have hne : v ≠ line_offset + (3 + (m - ia.1 - 1)) := by omega
  simp only [stackStep]
  obtain ⟨f1, f2⟩ := foldl_text_preserve (stackConnector line_offset width_offset ia.2)
    (List.range' 2 (3 + (m - ia.1 - 1) - 2))
    (fun b idx hidx hvb => by
      have h2le : 2 ≤ idx := by
        obtain ⟨i, -, rfl⟩ := List.mem_range'.mp hidx
        omega
      exact stackConnector_preserve hvr ia.2 b idx h2le hvb)
    b hv
  have hv2 : v < ((List.range' 2 (3 + (m - ia.1 - 1) - 2)).foldl
      (stackConnector line_offset width_offset ia.2) b).text.length :=
    Nat.lt_of_lt_of_le hv f2
  set b2 := (List.range' 2 (3 + (m - ia.1 - 1) - 2)).foldl
    (stackConnector line_offset width_offset ia.2) b with hb2
  have hlab : ∀ st : Style,
      (b2.puts (line_offset + (3 + (m - ia.1 - 1))) (width_offset + ia.2.start_col)
        (ia.2.label.getD "") st).text.get? v = b2.text.get? v ∧
      b2.text.length ≤ (b2.puts (line_offset + (3 + (m - ia.1 - 1)))
        (width_offset + ia.2.start_col) (ia.2.label.getD "") st).text.length :=
    fun st => puts_preserve hne hv2 _ _ st
  split
  · obtain ⟨g1, g2⟩ := hlab Style.LabelPrimary
    obtain ⟨g3, g4⟩ := puts_preserve hne (Nat.lt_of_lt_of_le hv2 g2) (width_offset - 2) "|>"
      Style.LineNumber
    exact ⟨(g3.trans g1).trans f1, Nat.le_trans f2 (Nat.le_trans g2 g4)⟩
  · obtain ⟨g1, g2⟩ := hlab Style.LabelSecondary
    obtain ⟨g3, g4⟩ := puts_preserve hne (Nat.lt_of_lt_of_le hv2 g2) (width_offset - 2) "|>"
      Style.LineNumber
    exact ⟨(g3.trans g1).trans f1, Nat.le_trans f2 (Nat.le_trans g2 g4)⟩

theorem stackLabels_preserve {line_offset width_offset v : Nat} (hvr : v < line_offset + 2)
    (la : List Annot) (b : StyledBuffer) (hv : v < b.text.length) :
    (stackLabels line_offset width_offset b la).text.get? v = b.text.get? v := by
  have := foldl_text_preserve (stackStep line_offset width_offset la.length) la.enum
    (fun b ia hia hvb => stackStep_preserve hvr b ia hvb) b hv
  exact this.1

theorem perm_all_eq {l₁ l₂ : List α} (h : l₁.Perm l₂) (p : α → Bool) :
    l₁.all p = l₂.all p := by
  rw [Bool.eq_iff_iff, List.all_eq_true, List.all_eq_true]
  exact ⟨fun H x hx => H x (h.mem_iff.mpr hx), fun H x hx => H x (h.mem_iff.mp hx)⟩

theorem erase_last_perm {labeled unlabeled : List Annot} {last : Annot}
    (h : labeled.getLast? = some last) :
    ((labeled ++ unlabeled).erase last).Perm (labeled.dropLast ++ unlabeled) := by
  have hne : labeled ≠ [] := by
    intro e; subst e; simp at h
  have hlast : labeled.getLast hne = last := by
    rw [List.getLast?_eq_getLast _ hne] at h
    exact Option.some.inj h
  have hsplit : labeled.dropLast ++ [last] = labeled := by
    rw [← hlast]; exact List.dropLast_append_getLast hne
  have hmem : last ∈ labeled ++ unlabeled := by
    apply List.mem_append_left
    rw [← hsplit]
    exact List.mem_append_right _ (List.mem_singleton.mpr rfl)
  have h1 : (labeled ++ unlabeled).Perm (last :: (labeled ++ unlabeled).erase last) :=
    List.perm_cons_erase hmem
  have h2 : (labeled ++ unlabeled).Perm (last :: (labeled.dropLast ++ unlabeled)) := by
    conv_lhs => rw [← hsplit]
    rw [List.append_assoc]
    exact List.perm_middle
  exact (h1.symm.trans h2).cons_inv

/-- C5: the label-placement rule.  In the label phase of
`render_source_line`, the last labeled annotation's text is appended inline
on the underline row exactly when no other annotation of the line — the
remaining labeled ones and all unlabeled ones together, i.e. the line's
annotations with one occurrence of the last removed — overlaps it in the
sense of `overlaps`; otherwise the underline row is left unchanged and the
label hangs below.  In particular (second and third conjuncts, the claim's
`span_overlap_label` shape evaluated end-to-end through
`render_source_line`): with `A` at `[0,8)` unlabeled and `B` at `[7,10)`
labeled, the underline row carries no label text and `B`'s label is placed
in the stacked row below, at `B`'s start column. -/
theorem inline_label_iff_no_overlap (line_offset width_offset : Nat) (buffer : StyledBuffer)
    (labeled unlabeled : List Annot) (last : Annot)
    (h1 : labeled.getLast? = some last)
    (hu : line_offset + 1 < buffer.text.length) :
    ((labelPhase line_offset width_offset buffer labeled unlabeled).text.get?
        (line_offset + 1) =
      some (buffer.text.getD (line_offset + 1) [] ++
        (if ((labeled ++ unlabeled).erase last).all (fun a => !overlaps a last) = true
         then (" " ++ last.label.getD "").data else []))) ∧
    c5Out.text.getD 1 [] = "   |>----------".data ∧
    c5Out.text.getD 3 [] = "   |>       x_span".data := by
  refine ⟨?_, by decide, by decide⟩
  have hrow : buffer.text.get? (line_offset + 1) =
      some (buffer.text.getD (line_offset + 1) []) := get?_of_lt_length hu []
  have hQ : ((labeled.dropLast ++ unlabeled).all fun a => !overlaps a last) =
      (((labeled ++ unlabeled).erase last).all fun a => !overlaps a last) :=
    (perm_all_eq (erase_last_perm h1) _).symm
  simp only [labelPhase, h1]
  by_cases hP : ((labeled.dropLast ++ unlabeled).all fun a => !overlaps a last) = true
  · have hP' : (((labeled ++ unlabeled).erase last).all fun a => !overlaps a last) = true :=
      hQ.symm.trans hP
    rw [if_pos hP, if_pos hP']
    dsimp only
    have key : ∀ st : Style,
        ((if (labeled.dropLast).isEmpty then
            buffer.append (line_offset + 1) (" " ++ last.label.getD "") st
          else
            stackLabels line_offset width_offset
              (buffer.append (line_offset + 1) (" " ++ last.label.getD "") st)
              labeled.dropLast).text.get? (line_offset + 1)) =
          some (buffer.text.getD (line_offset + 1) [] ++ (" " ++ last.label.getD "").data) := by
      intro st
      have ha := append_get?_of_lt hrow (" " ++ last.label.getD "") st (line_offset + 1)
      rw [if_pos rfl] at ha
      have hl := append_length_of_lt hrow (" " ++ last.label.getD "") st
      split
      · exact ha
      · rw [stackLabels_preserve (by omega) _ _ (by rw [hl]; exact hu)]
        exact ha
    by_cases hpr : last.is_primary = true
    · rw [if_pos hpr]; exact key Style.LabelPrimary
    · rw [if_neg hpr]; exact key Style.LabelSecondary
  · have hP2 : ¬((((labeled ++ unlabeled).erase last).all fun a => !overlaps a last) = true) :=
      fun hc => hP (hQ.trans hc)
    rw [if_neg hP, if_neg hP2]
    dsimp only
    have hlne : ¬(labeled.isEmpty = true) := by
      intro e
      rw [List.isEmpty_iff] at e
      subst e
      simp at h1
    rw [if_neg hlne, stackLabels_preserve (by omega) labeled buffer hu, hrow,
      List.append_nil]

/-- Witness for C5 at a concrete input: one labeled annotation `B` with the
unlabeled `A` overlapping it, in a buffer whose underline row exists. -/
theorem inline_label_iff_no_overlap_witness :
    (([annB5] : List Annot).getLast? = some annB5 ∧
     0 + 1 < (StyledBuffer.new.puts 1 0 "ab" Style.NoStyle).text.length) ∧
    (((labelPhase 0 5 (StyledBuffer.new.puts 1 0 "ab" Style.NoStyle) [annB5]
          [annA5]).text.get? (0 + 1) =
      some ((StyledBuffer.new.puts 1 0 "ab" Style.NoStyle).text.getD (0 + 1) [] ++
        (if (([annB5] ++ [annA5]).erase annB5).all (fun a => !overlaps a annB5) = true
         then (" " ++ annB5.label.getD "").data else []))) ∧
     c5Out.text.getD 1 [] = "   |>----------".data ∧
     c5Out.text.getD 3 [] = "   |>       x_span".data) :=
  ⟨⟨by decide, by decide⟩,
   inline_label_iff_no_overlap 0 5 (StyledBuffer.new.puts 1 0 "ab" Style.NoStyle)
     [annB5] [annA5] annB5 (by decide) (by decide)⟩

theorem toDigitsCore_length_ge (b : Nat) :
    ∀ (fuel n : Nat) (ds : List Char), ds.length ≤ (Nat.toDigitsCore b fuel n ds).length := by
  intro fuel
  induction fuel with
  | zero => intro n ds; simp [Nat.toDigitsCore]
  | succ f ih =>
    intro n ds
    rw [Nat.toDigitsCore]
    split
    · simp
    · exact Nat.le_trans (by simp) (ih _ _)

theorem repr_data_ne_nil (n : Nat) : (Nat.repr n).data ≠ [] := by
  have h : 1 ≤ (Nat.toDigits 10 n).length := by
    rw [Nat.toDigits, Nat.toDigitsCore]
    split
    · simp
    · exact Nat.le_trans (by simp) (toDigitsCore_length_ge 10 _ _ _)
  intro e
  have hd : (Nat.toDigits 10 n).asString.data = Nat.toDigits 10 n := rfl
  rw [Nat.repr, hd] at e
  rw [e] at h
  simp at h

theorem eq_append_single_of_get? {l l' : List α} {x : α}
    (hlen : l'.length = l.length + 1)
    (hget : ∀ v, l'.get? v = if v = l.length then some x else l.get? v) :
    l' = l ++ [x] := by
  apply List.ext
  intro n
  rw [hget n]
  by_cases hn : n = l.length
  · subst hn
    rw [if_pos rfl, List.get?_concat_length]
  · rw [if_neg hn]
    rcases Nat.lt_or_ge n l.length with hlt | hge
    · rw [List.get?_append hlt]
    · have h1 : l.get? n = none := List.get?_eq_none.mpr hge
      have h2 : (l ++ [x]).get? n = none := by
        rw [List.get?_eq_none.mpr]
        simp only [List.length_append, List.length_singleton]
        omega
      rw [h1, h2]

/-- C4: the gap-elision law.  For consecutive annotated lines `n` (`cur`)
and `m` (`nextLine`) of one file: if `m - n > 2` the renderer appends
exactly one elision row `...` and no source line; if `m - n = 2` it appends
exactly one verbatim unannotated source row carrying the decimal of
`n + 1 = m - 1`, the gutter `|>`, and the text of the skipped line
(`get_line n`, the 0-based index of 1-based line `n + 1`), separated only
by space/tab padding; if `m - n = 1` it appends nothing.  The hypothesis
bounds the printed line number's width by the gutter width, as holds in the
renderer where the gutter is sized from the maximal line number. -/
theorem gap_elision (file : FileMap) (len_of_max : Nat) (cur nextLine : Line)
    (buffer : StyledBuffer)
    (hd : (Nat.repr (nextLine.line_number - 1)).length ≤ 1 + len_of_max) :
    (nextLine.line_number - cur.line_number > 2 →
      (gapStep file len_of_max cur (some nextLine) buffer).text =
        buffer.text ++ [['.', '.', '.']]) ∧
    (nextLine.line_number - cur.line_number = 2 →
      ∃ pad : List Char,
        (gapStep file len_of_max cur (some nextLine) buffer).text =
          buffer.text ++ [(Nat.repr (nextLine.line_number - 1)).data ++ pad ++
            ('|' :: '>' :: ((file.get_line cur.line_number).getD "").data)] ∧
        pad.length = 1 + len_of_max - (Nat.repr (nextLine.line_number - 1)).length ∧
        ∀ c ∈ pad, c = ' ' ∨ c = '\t') ∧
    (nextLine.line_number - cur.line_number = 1 →
      gapStep file len_of_max cur (some nextLine) buffer = buffer) := by
  refine ⟨?_, ?_, ?_⟩
  · intro h
    simp only [gapStep]
    rw [if_pos h]
    simp only [StyledBuffer.puts, StyledBuffer.num_lines]
    exact eq_append_single_of_get?
      (putsList_fresh_length (by decide) buffer Style.LineNumber)
      (putsList_fresh_get? (by decide) buffer Style.LineNumber)
  · intro h
    simp only [gapStep]
    rw [if_neg (by omega), if_pos h]
    simp only [StyledBuffer.puts, StyledBuffer.num_lines]
    set numStr := Nat.repr (nextLine.line_number - 1) with hnum
    set src := ((file.get_line cur.line_number).getD "").data with hsrc
    have hne : numStr.data ≠ [] := repr_data_ne_nil _
    have hdl : numStr.data.length ≤ 1 + len_of_max := hd
    -- first puts: the fresh row receives the decimal line number
    have h1g := putsList_fresh_get? hne buffer Style.LineNumber
    have h1len := putsList_fresh_length hne buffer Style.LineNumber
    set b1 := putsList buffer buffer.text.length 0 numStr.data Style.LineNumber with hb1
    have h1row : b1.text.get? buffer.text.length = some numStr.data := by
      rw [h1g buffer.text.length, if_pos rfl]
    -- second puts: the gutter marker, after padding out to the gutter column
    have hsplit2 : putsList b1 buffer.text.length (1 + len_of_max) ('|' :: '>' :: [])
        Style.LineNumber =
        ((b1.putc buffer.text.length (1 + len_of_max) '|' Style.LineNumber).putc
          buffer.text.length (1 + len_of_max + 1) '>' Style.LineNumber) := rfl
    set pad := padChars (b1.text.getD 0 []) numStr.data.length
      (1 + len_of_max - numStr.data.length) with hpad
    have h2ag := putc_extend_get? h1row hdl '|' Style.LineNumber
    have h2alen := putc_extend_length h1row hdl '|' Style.LineNumber
    set b2a := b1.putc buffer.text.length (1 + len_of_max) '|' Style.LineNumber with hb2a
    have h2arow : b2a.text.get? buffer.text.length = some (numStr.data ++ pad ++ ['|']) := by
      rw [h2ag buffer.text.length, if_pos rfl]
    have h2arowlen : (numStr.data ++ pad ++ ['|']).length = 1 + len_of_max + 1 := by
      simp only [List.length_append, List.length_singleton, hpad, padChars_length]
      omega
    have h2bg := putc_extend_get? h2arow (Nat.le_of_eq h2arowlen) '>' Style.LineNumber
    have h2blen := putc_extend_length h2arow (Nat.le_of_eq h2arowlen) '>' Style.LineNumber
    set b2b := b2a.putc buffer.text.length (1 + len_of_max + 1) '>' Style.LineNumber with hb2b
    have hpad0 : padChars (b2a.text.getD 0 []) (numStr.data ++ pad ++ ['|']).length
        (1 + len_of_max + 1 - (numStr.data ++ pad ++ ['|']).length) = [] := by
      rw [h2arowlen]
      simp [padChars]
    rw [hpad0, List.append_nil] at h2bg
    have h2brow : b2b.text.get? buffer.text.length =
        some (numStr.data ++ pad ++ ['|'] ++ ['>']) := by
      rw [h2bg buffer.text.length, if_pos rfl]
    have h2browlen : (numStr.data ++ pad ++ ['|'] ++ ['>']).length = 3 + len_of_max := by
      simp only [List.length_append, List.length_singleton, hpad, padChars_length]
      omega
    -- third puts: the verbatim source text, appended at exactly the source column
    have h3g := putsList_append_get? src b2b buffer.text.length
      (numStr.data ++ pad ++ ['|'] ++ ['>']) h2brow Style.Quotation
    have h3len := putsList_append_length src b2b buffer.text.length
      (numStr.data ++ pad ++ ['|'] ++ ['>']) h2brow Style.Quotation
    rw [h2browlen] at h3g h3len
    refine ⟨pad, ?_, ?_, fun c hc => padChars_mem hc⟩
    · rw [hsplit2]
      apply eq_append_single_of_get?
      · rw [h3len, h2blen, h2alen, h1len]
      · intro v
        rw [h3g v, h2bg v, h2ag v, h1g v]
        by_cases hv : v = buffer.text.length
        · simp only [if_pos hv]
          simp
        · simp only [if_neg hv]
    · rw [hpad, padChars_length]
      rfl
  · intro h
    simp only [gapStep]
    rw [if_neg (by omega), if_neg (by omega)]

/-- Witness for C4 at concrete inputs: lines 1 and 3 (a gap of exactly 2)
in a five-line file, a gutter of width 1, an empty starting buffer. -/
theorem gap_elision_witness :
    (Nat.repr (({ line_number := 3, annotations := [] } : Line).line_number - 1)).length ≤
        1 + 1 ∧
    ((3 - 1 > 2 →
      (gapStep fileC4 1 { line_number := 1, annotations := [] }
        (some { line_number := 3, annotations := [] }) StyledBuffer.new).text =
        StyledBuffer.new.text ++ [['.', '.', '.']]) ∧
     (3 - 1 = 2 →
      ∃ pad : List Char,
        (gapStep fileC4 1 { line_number := 1, annotations := [] }
          (some { line_number := 3, annotations := [] }) StyledBuffer.new).text =
          StyledBuffer.new.text ++ [(Nat.repr (3 - 1)).data ++ pad ++
            ('|' :: '>' :: ((fileC4.get_line 1).getD "").data)] ∧
        pad.length = 1 + 1 - (Nat.repr (3 - 1)).length ∧
        ∀ c ∈ pad, c = ' ' ∨ c = '\t') ∧
     (3 - 1 = 1 →
      gapStep fileC4 1 { line_number := 1, annotations := [] }
        (some { line_number := 3, annotations := [] }) StyledBuffer.new = StyledBuffer.new)) :=
  ⟨by decide,
   gap_elision fileC4 1 { line_number := 1, annotations := [] }
     { line_number := 3, annotations := [] } StyledBuffer.new (by decide)⟩

theorem strCmp_self (s : String) : compare s s = Ordering.eq :=
  Batteries.OrientedCmp.cmp_refl

theorem eq_of_strCmp_eq {s t : String} (h : compare s t = Ordering.eq) : s = t :=
  Batteries.BEqCmp.cmp_iff_eq.mp h

theorem add_annotation_names {fv : List FileWithAnnotatedLines} {file : FileMap}
    {line_number : Nat} {ann : Annot} :
    ∀ x ∈ add_annotation_to_file fv file line_number ann,
      x.file.name = file.name ∨ ∃ y ∈ fv, x.file.name = y.file.name := by
  induction fv with
  | nil =>
    intro x hx
    simp only [add_annotation_to_file, List.mem_singleton] at hx
    subst hx
    exact Or.inl rfl
  | cons slot rest ih =>
    intro x hx
    simp only [add_annotation_to_file] at hx
    split at hx
    · rcases List.mem_cons.mp hx with rfl | hxr
      · refine Or.inr ⟨slot, List.mem_cons_self slot rest, ?_⟩
        cases hp : pushToLine slot.lines line_number ann <;> simp [hp]
      · exact Or.inr ⟨x, List.mem_cons_of_mem slot hxr, rfl⟩
    · rcases List.mem_cons.mp hx with rfl | hxr
      · exact Or.inr ⟨x, List.mem_cons_self x rest, rfl⟩
      · rcases ih x hxr with h1 | ⟨y, hy, he⟩
        · exact Or.inl h1
        · exact Or.inr ⟨y, List.mem_cons_of_mem slot hy, he⟩

theorem add_annotation_pairwise {fv : List FileWithAnnotatedLines} {file : FileMap}
    {line_number : Nat} {ann : Annot}
    (h : fv.Pairwise (fun x y => x.file.name ≠ y.file.name)) :
    (add_annotation_to_file fv file line_number ann).Pairwise
      (fun x y => x.file.name ≠ y.file.name) := by
  induction fv with
  | nil => simp [add_annotation_to_file]
  | cons slot rest ih =>
    rw [List.pairwise_cons] at h
    obtain ⟨hslot, hrest⟩ := h
    simp only [add_annotation_to_file]
    split
    · cases hp : pushToLine slot.lines line_number ann with
      | none =>
        simp only [hp]
        rw [List.pairwise_cons]
        exact ⟨fun y hy => hslot y hy, hrest⟩
      | some ls =>
        simp only [hp]
        rw [List.pairwise_cons]
        exact ⟨fun y hy => hslot y hy, hrest⟩
    · rename_i hne
      rw [List.pairwise_cons]
      refine ⟨?_, ih hrest⟩
      intro y hy
      rcases add_annotation_names y hy with h1 | ⟨z, hz, he⟩
      · rw [h1]
        exact hne
      · rw [he]
        exact hslot z hz

theorem foldl_invariant {α β : Type _} {P : α → Prop} (f : α → β → α)
    (h : ∀ a b, P a → P (f a b)) :
    ∀ (l : List β) (a : α), P a → P (l.foldl f a) := by
  intro l
  induction l with
  | nil => intro a ha; exact ha
  | cons x xs ih => intro a ha; exact ih _ (h a x ha)

theorem preprocess_pairwise (msg : CompilerMessage) :
    (preprocess_annotations msg).Pairwise (fun x y => x.file.name ≠ y.file.name) := by
  unfold preprocess_annotations
  exact foldl_invariant _ (fun acc sl hacc => add_annotation_pairwise hacc)
    msg.span_labels [] List.Pairwise.nil

theorem reorder_two {a b : FileWithAnnotatedLines} (ploc : Loc)
    (hab : a.file.name ≠ b.file.name)
    (hp : ploc.file.name = a.file.name ∨ ploc.file.name = b.file.name) :
    (reorderPrimaryFirst [a, b] ploc).head?.map (fun fw => fw.file.name) =
      some ploc.file.name := by
  rcases hp with hp | hp
  · rcases hfb : compare b.file.name ploc.file.name with _ | _ | _
    · rw [hp] at hfb
      simp [reorderPrimaryFirst, binary_search_by, bsGo, hp, hfb]
    · exact absurd ((eq_of_strCmp_eq hfb).trans hp) (fun e => hab e.symm)
    · rw [hp] at hfb
      have hfa : compare a.file.name a.file.name = Ordering.eq := strCmp_self _
      simp [reorderPrimaryFirst, binary_search_by, bsGo, hp, hfb, hfa, listSwap]
  · have hfb : compare b.file.name b.file.name = Ordering.eq := strCmp_self _
    simp [reorderPrimaryFirst, binary_search_by, bsGo, hp, hfb, listSwap]

/-- C3 (amended): for a diagnostic whose annotations involve exactly two
files, the file containing the primary span is rendered first regardless of
the order in which the files were first encountered.  (The claim's original
"two or more" fails: see the three-file counterexample, where the binary
search over the unsorted list misses the primary file.) -/
theorem primary_first_with_two_files (msg : CompilerMessage)
    (h2 : (preprocess_annotations msg).length = 2)
    (hp : ∃ fw ∈ preprocess_annotations msg,
      fw.file.name = (msg.cm.lookup_char_pos msg.primary_span.lo).file.name) :
    (orderedAnnotatedFiles msg).head?.map (fun fw => fw.file.name) =
      some (msg.cm.lookup_char_pos msg.primary_span.lo).file.name := by
  have hpw := preprocess_pairwise msg
  obtain ⟨a, b, hl⟩ : ∃ a b, preprocess_annotations msg = [a, b] := by
    cases hx : preprocess_annotations msg with
    | nil => rw [hx] at h2; simp at h2
    | cons a t =>
      cases t with
      | nil => rw [hx] at h2; simp at h2
      | cons b t2 =>
        cases t2 with
        | nil => exact ⟨a, b, rfl⟩
        | cons c t3 => rw [hx] at h2; simp at h2
  rw [hl] at hpw hp
  rw [List.pairwise_cons] at hpw
  have hab : a.file.name ≠ b.file.name :=
    hpw.1 b (List.mem_cons_self b [])
  unfold orderedAnnotatedFiles
  rw [hl]
  apply reorder_two
  · exact hab
  · obtain ⟨fw, hfw, he⟩ := hp
    rcases List.mem_cons.mp hfw with rfl | hfw2
    · exact Or.inl he.symm
    · rcases List.mem_singleton.mp hfw2 with rfl
      exact Or.inr he.symm

/-- Witness for C3 (amended) at a concrete two-file diagnostic whose
primary file is encountered second. -/
theorem primary_first_with_two_files_witness :
    ((preprocess_annotations msgXY).length = 2 ∧
     ∃ fw ∈ preprocess_annotations msgXY,
       fw.file.name = (msgXY.cm.lookup_char_pos msgXY.primary_span.lo).file.name) ∧
    (orderedAnnotatedFiles msgXY).head?.map (fun fw => fw.file.name) =
      some (msgXY.cm.lookup_char_pos msgXY.primary_span.lo).file.name :=
  ⟨⟨by decide, by decide⟩,
   primary_first_with_two_files msgXY (by decide) (by decide)⟩

theorem foldl_congr_mem {β : Type _} (l : List β) (f g : Nat → β → Nat)
    (h : ∀ acc x, x ∈ l → f acc x = g acc x) :
    ∀ acc, l.foldl f acc = l.foldl g acc := by
  induction l with
  | nil => intro acc; rfl
  | cons x xs ih =>
    intro acc
    show xs.foldl f (f acc x) = xs.foldl g (g acc x)
    rw [h acc x (List.mem_cons_self x xs)]
    exact ih (fun acc y hy => h acc y (List.mem_cons_of_mem x hy)) (g acc x)

theorem max_line_fold_eq (msg : CompilerMessage)
    (h : ∀ sl ∈ msg.span_labels,
      (msg.cm.lookup_char_pos sl.span.lo).line ≤ (msg.cm.lookup_char_pos sl.span.hi).line) :
    get_max_line_num msg = maxTouchedLineSpec msg := by
  unfold get_max_line_num maxTouchedLineSpec
  refine foldl_congr_mem msg.span_labels _ _ ?_ 0
  intro acc sl hsl
  have hle := h sl hsl
  rw [Nat.max_eq_right hle]
  by_cases hc : (msg.cm.lookup_char_pos sl.span.hi).line > acc
  · rw [if_pos hc, Nat.max_eq_right (Nat.le_of_lt hc)]
  · rw [if_neg hc, Nat.max_eq_left (Nat.le_of_not_lt hc)]

/-- C7: the single gutter width.  The width `len_of_max_line_num` that
`render_succinct` computes once (lines 59-61) and threads to every file's
location line, gutter spacer, source rows and gap rows is the decimal digit
count of the highest line number touched by any annotation across all of
the diagnostic's files — where a span label touches the lines from its
`lo` line to its `hi` line (the hypothesis is the codemap's monotonicity,
`lo ≤ hi` implying `lo.line ≤ hi.line`). -/
theorem gutter_width_is_max_touched_digits (msg : CompilerMessage)
    (h : ∀ sl ∈ msg.span_labels,
      (msg.cm.lookup_char_pos sl.span.lo).line ≤ (msg.cm.lookup_char_pos sl.span.hi).line) :
    len_of_max_line_num msg = (Nat.repr (maxTouchedLineSpec msg)).length := by
  unfold len_of_max_line_num
  rw [max_line_fold_eq msg h]

/-- Witness for C7 at a concrete two-file diagnostic. -/
theorem gutter_width_is_max_touched_digits_witness :
    (∀ sl ∈ msgC3.span_labels,
      (msgC3.cm.lookup_char_pos sl.span.lo).line ≤
        (msgC3.cm.lookup_char_pos sl.span.hi).line) ∧
    len_of_max_line_num msgC3 = (Nat.repr (maxTouchedLineSpec msgC3)).length :=
  ⟨by decide, gutter_width_is_max_touched_digits msgC3 (by decide)⟩

theorem joinRunTexts_cons (r : StyledString) (rs : List StyledString) :
    joinRunTexts (r :: rs) = r.text.data ++ joinRunTexts rs := rfl

theorem renderRowGo_join (cells : List (Char × Style)) :
    ∀ (cur : Style) (txt : List Char),
      joinRunTexts (renderRowGo cells cur txt) = txt ++ cells.map Prod.fst := by
  induction cells with
  | nil =>
    intro cur txt
    cases txt <;> simp [renderRowGo, joinRunTexts]
  | cons cs rest ih =>
    obtain ⟨c, s⟩ := cs
    intro cur txt
    simp only [renderRowGo]
    by_cases h1 : s = cur
    · rw [if_pos h1, ih]
      simp
    · rw [if_neg h1]
      by_cases h2 : txt.isEmpty
      · rw [if_pos h2, ih]
        rw [List.isEmpty_iff.mp h2]
        simp
      · rw [if_neg h2, joinRunTexts_cons, ih]
        simp

theorem renderRowGo_ne_empty (cells : List (Char × Style)) :
    ∀ (cur : Style) (txt : List Char), ∀ r ∈ renderRowGo cells cur txt, r.text ≠ "" := by
  induction cells with
  | nil =>
    intro cur txt r hr
    by_cases h2 : txt.isEmpty
    · simp [renderRowGo, h2] at hr
    · simp only [renderRowGo, if_neg h2, List.mem_singleton] at hr
      subst hr
      intro e
      exact h2 (by rw [show txt = [] from congrArg String.data e]; rfl)
  | cons cs rest ih =>
    obtain ⟨c, s⟩ := cs
    intro cur txt r hr
    simp only [renderRowGo] at hr
    by_cases h1 : s = cur
    · rw [if_pos h1] at hr
      exact ih cur (txt ++ [c]) r hr
    · rw [if_neg h1] at hr
      by_cases h2 : txt.isEmpty
      · rw [if_pos h2] at hr
        exact ih s [c] r hr
      · rw [if_neg h2] at hr
        rcases List.mem_cons.mp hr with rfl | hr2
        · intro e
          exact h2 (by rw [show txt = [] from congrArg String.data e]; rfl)
        · exact ih s [c] r hr2

theorem renderRowGo_head (cells : List (Char × Style)) :
    ∀ (cur : Style) (txt : List Char), txt ≠ [] →
      ∃ r rs, renderRowGo cells cur txt = r :: rs ∧ r.style = cur := by
  induction cells with
  | nil =>
    intro cur txt hne
    refine ⟨⟨String.mk txt, cur⟩, [], ?_, rfl⟩
    simp [renderRowGo, hne]
  | cons cs rest ih =>
    obtain ⟨c, s⟩ := cs
    intro cur txt hne
    simp only [renderRowGo]
    by_cases h1 : s = cur
    · rw [if_pos h1]
      exact ih cur (txt ++ [c]) (by simp)
    · rw [if_neg h1, if_neg (by simpa [List.isEmpty_iff] using hne)]
      exact ⟨⟨String.mk txt, cur⟩, renderRowGo rest s [c], rfl, rfl⟩

theorem renderRowGo_chain (cells : List (Char × Style)) :
    ∀ (cur : Style) (txt : List Char),
      consecutiveStylesDiffer (renderRowGo cells cur txt) = true := by
  induction cells with
  | nil =>
    intro cur txt
    cases txt <;> simp [renderRowGo, consecutiveStylesDiffer]
  | cons cs rest ih =>
    obtain ⟨c, s⟩ := cs
    intro cur txt
    simp only [renderRowGo]
    by_cases h1 : s = cur
    · rw [if_pos h1]
      exact ih cur (txt ++ [c])
    · rw [if_neg h1]
      by_cases h2 : txt.isEmpty
      · rw [if_pos h2]
        exact ih s [c]
      · rw [if_neg h2]
        obtain ⟨r, rs, he, hs⟩ := renderRowGo_head rest s [c] (by simp)
        rw [he]
        show (decide ((⟨String.mk txt, cur⟩ : StyledString).style ≠ r.style) &&
          consecutiveStylesDiffer (r :: rs)) = true
        rw [← he, ih s [c], Bool.and_true, decide_eq_true_eq]
        rw [hs]
        exact fun e => h1 e.symm

theorem alignedB_length : ∀ {t : List (List Char)} {s : List (List Style)},
    alignedB t s = true → t.length = s.length := by
  intro t
  induction t with
  | nil => intro s h; cases s with
    | nil => rfl
    | cons a b => simp [alignedB] at h
  | cons r rt ih =>
    intro s h
    cases s with
    | nil => simp [alignedB] at h
    | cons sr st =>
      simp only [alignedB, Bool.and_eq_true] at h
      simp [ih h.2]

theorem alignedB_get? : ∀ {t : List (List Char)} {s : List (List Style)},
    alignedB t s = true → ∀ (i : Nat) (r : List Char), t.get? i = some r →
      ∃ sr, s.get? i = some sr ∧ r.length = sr.length := by
  intro t
  induction t with
  | nil => intro s h i r hr; simp at hr
  | cons r0 rt ih =>
    intro s h i r hr
    cases s with
    | nil => simp [alignedB] at h
    | cons sr0 st =>
      simp only [alignedB, Bool.and_eq_true, beq_iff_eq] at h
      cases i with
      | zero =>
        simp only [List.get?] at hr
        exact ⟨sr0, rfl, by rw [Option.some.inj hr] at h; exact h.1⟩
      | succ n =>
        simp only [List.get?] at hr ⊢
        exact ih h.2 n r hr

theorem get?_zip_eq {l1 : List α} {l2 : List β} :
    ∀ {i : Nat} {x : α} {y : β}, l1.get? i = some x → l2.get? i = some y →
      (l1.zip l2).get? i = some (x, y) := by
  induction l1 generalizing l2 with
  | nil => intro i x y h1; simp at h1
  | cons a t ih =>
    intro i x y h1 h2
    cases l2 with
    | nil => simp at h2
    | cons b t2 =>
      cases i with
      | zero =>
        simp only [List.get?] at h1 h2
        rw [Option.some.inj h1, Option.some.inj h2]
        rfl
      | succ n =>
        simp only [List.get?] at h1 h2 ⊢
        exact ih h1 h2

/-- C8: compaction.  For an aligned buffer, `render` emits exactly one
output row per buffer row in row order, and within each row the runs (in
column order) concatenate back to the row's characters, are all non-empty,
and no two consecutive runs share a style. -/
theorem render_compacts_rows (b : StyledBuffer) (h : aligned b) :
    b.render.length = b.text.length ∧
    ∀ i, i < b.text.length →
      joinRunTexts (b.render.getD i []) = b.text.getD i [] ∧
      (∀ r ∈ b.render.getD i [], r.text ≠ "") ∧
      consecutiveStylesDiffer (b.render.getD i []) = true := by
  have hlen : b.text.length = b.styles.length := alignedB_length h
  constructor
  · simp [StyledBuffer.render, List.length_zip, ← hlen]
  · intro i hi
    obtain ⟨r, hr⟩ : ∃ r, b.text.get? i = some r := ⟨_, get?_of_lt_length hi []⟩
    obtain ⟨sr, hsr, hrs⟩ := alignedB_get? h i r hr
    have hzip : (b.text.zip b.styles).get? i = some (r, sr) := get?_zip_eq hr hsr
    have hrend : b.render.get? i = some (renderRow (r.zip sr)) := by
      show ((b.text.zip b.styles).map fun rc => renderRow (rc.1.zip rc.2)).get? i = _
      rw [List.get?_map, hzip]
      rfl
    rw [getD_of_get? hrend, getD_of_get? hr]
    refine ⟨?_, renderRowGo_ne_empty _ _ _, renderRowGo_chain _ _ _⟩
    rw [renderRow, renderRowGo_join]
    simp [List.map_fst_zip _ _ (Nat.le_of_eq hrs)]

/-- Witness for C8 at a concrete two-row aligned buffer. -/
theorem render_compacts_rows_witness :
    aligned bufC8 ∧
    (bufC8.render.length = bufC8.text.length ∧
     ∀ i, i < bufC8.text.length →
       joinRunTexts (bufC8.render.getD i []) = bufC8.text.getD i [] ∧
       (∀ r ∈ bufC8.render.getD i [], r.text ≠ "") ∧
       consecutiveStylesDiffer (bufC8.render.getD i []) = true) :=
  ⟨by decide, render_compacts_rows bufC8 (by decide)⟩

theorem alignedB_replicate (k : Nat) :
    alignedB (List.replicate k []) (List.replicate k []) = true := by
  induction k with
  | zero => rfl
  | succ n ih => simpa [List.replicate, alignedB] using ih

theorem alignedB_append : ∀ {t : List (List Char)} {s : List (List Style)}
    {t2 : List (List Char)} {s2 : List (List Style)},
    alignedB t s = true → alignedB t2 s2 = true → alignedB (t ++ t2) (s ++ s2) = true := by
  intro t
  induction t with
  | nil =>
    intro s t2 s2 h1 h2
    cases s with
    | nil => exact h2
    | cons a b => simp [alignedB] at h1
  | cons r rt ih =>
    intro s t2 s2 h1 h2
    cases s with
    | nil => simp [alignedB] at h1
    | cons sr st =>
      simp only [alignedB, Bool.and_eq_true] at h1
      simpa [alignedB, h1.1] using ih h1.2 h2

theorem aligned_ensure {b : StyledBuffer} (h : aligned b) (line : Nat) :
    aligned (b.ensure_lines line) := by
  simp only [StyledBuffer.ensure_lines]
  exact alignedB_append h (alignedB_replicate _)

theorem ensure_lt_text_length (b : StyledBuffer) (line : Nat) :
    line < (b.ensure_lines line).text.length := by
  simp [StyledBuffer.ensure_lines]
  omega

theorem alignedB_set_both : ∀ {t : List (List Char)} {s : List (List Style)},
    alignedB t s = true → ∀ (i : Nat) (r' : List Char) (sr' : List Style),
      r'.length = sr'.length → alignedB (t.set i r') (s.set i sr') = true := by
  intro t
  induction t with
  | nil =>
    intro s h i r' sr' hl
    cases s with
    | nil => rfl
    | cons a b => simp [alignedB] at h
  | cons r rt ih =>
    intro s h i r' sr' hl
    cases s with
    | nil => simp [alignedB] at h
    | cons sr st =>
      simp only [alignedB, Bool.and_eq_true] at h
      cases i with
      | zero => simpa [alignedB, hl] using h.2
      | succ n => simpa [alignedB, h.1] using ih h.2 n r' sr' hl

theorem alignedB_set_right : ∀ {t : List (List Char)} {s : List (List Style)},
    alignedB t s = true → ∀ (i : Nat) (sr sr' : List Style),
      s.get? i = some sr → sr'.length = sr.length → alignedB t (s.set i sr') = true := by
  intro t
  induction t with
  | nil =>
    intro s h i sr sr' hget hl
    cases s with
    | nil => rfl
    | cons a b => simp [alignedB] at h
  | cons r rt ih =>
    intro s h i sr sr' hget hl
    cases s with
    | nil => simp [alignedB] at h
    | cons sr0 st =>
      simp only [alignedB, Bool.and_eq_true, beq_iff_eq] at h
      cases i with
      | zero =>
        simp only [List.get?] at hget
        rw [← Option.some.inj hget] at hl
        simp [alignedB, h.2, h.1, hl]
      | succ n =>
        simp only [List.get?] at hget
        simpa [alignedB, h.1] using ih h.2 n sr sr' hget hl

theorem aligned_get?_pair {b : StyledBuffer} (h : aligned b) {i : Nat}
    (hi : i < b.text.length) :
    b.text.get? i = some (b.text.getD i []) ∧
    b.styles.get? i = some (b.styles.getD i []) ∧
    (b.text.getD i []).length = (b.styles.getD i []).length := by
  have h1 := get?_of_lt_length hi ([] : List Char)
  obtain ⟨sr, hsr, hlen⟩ := alignedB_get? h i _ h1
  have h2 : b.styles.getD i [] = sr := getD_of_get? hsr []
  exact ⟨h1, h2 ▸ hsr, h2 ▸ hlen⟩

theorem putc_checked_eq {b : StyledBuffer} (h : aligned b) (line col : Nat) (chr : Char)
    (st : Style) :
    putcChecked b line col chr st = some (b.putc line col chr st) ∧
    aligned (b.putc line col chr st) := by
  have hb' : aligned (b.ensure_lines line) := aligned_ensure h line
  have hlt : line < (b.ensure_lines line).text.length := ensure_lt_text_length b line
  obtain ⟨hrow, hsrow, hlen⟩ := aligned_get?_pair hb' hlt
  have hlt0 : 0 < (b.ensure_lines line).text.length := Nat.lt_of_le_of_lt (Nat.zero_le _) hlt
  have hrow0 := get?_of_lt_length hlt0 ([] : List Char)
  constructor
  · simp only [putcChecked, StyledBuffer.putc, hrow, hsrow, hrow0, Option.bind_eq_bind,
      Option.some_bind]
    split
    · rename_i hcol
      rw [if_pos (hlen ▸ hcol)]
    · rfl
  · simp only [StyledBuffer.putc]
    split
    · exact alignedB_set_both hb' line _ _ (by simpa only [List.length_set] using hlen)
    · exact alignedB_set_both hb' line _ _
        (by simp only [List.length_append, padChars_length, List.length_replicate,
              List.length_singleton]
            omega)

theorem putsList_checked (line : Nat) (st : Style) (cs : List Char) :
    ∀ (b : StyledBuffer) (col : Nat), aligned b →
      putsListChecked b line col cs st = some (putsList b line col cs st) ∧
      aligned (putsList b line col cs st) := by
  induction cs with
  | nil => intro b col h; exact ⟨rfl, h⟩
  | cons c rest ih =>
    intro b col h
    obtain ⟨he, ha⟩ := putc_checked_eq h line col c st
    obtain ⟨ihe, iha⟩ := ih (b.putc line col c st) (col + 1) ha
    constructor
    · show (putcChecked b line col c st).bind _ = _
      rw [he, Option.some_bind]
      exact ihe
    · exact iha

theorem prepend_checked_eq {b : StyledBuffer} (h : aligned b) (line : Nat) (s : String)
    (st : Style) :
    prependChecked b line s st = some (b.prepend line s st) ∧
    aligned (b.prepend line s st) := by
  have hb' : aligned (b.ensure_lines line) := aligned_ensure h line
  have hlt : line < (b.ensure_lines line).text.length := ensure_lt_text_length b line
  obtain ⟨hrow, hsrow, hlen⟩ := aligned_get?_pair hb' hlt
  have hmid : aligned
      { text := (b.ensure_lines line).text.set line
          (List.replicate s.utf8ByteSize ' ' ++ (b.ensure_lines line).text.getD line []),
        styles := (b.ensure_lines line).styles.set line
          (List.replicate s.utf8ByteSize Style.NoStyle ++
            (b.ensure_lines line).styles.getD line []) } :=
    alignedB_set_both hb' line _ _
      (by simp only [List.length_append, List.length_replicate]; omega)
  constructor
  · simp only [prependChecked, StyledBuffer.prepend, hrow, hsrow, Option.bind_eq_bind,
      Option.some_bind]
    exact (putsList_checked line st s.data _ 0 hmid).1
  · simp only [StyledBuffer.prepend]
    exact (putsList_checked line st s.data _ 0 hmid).2

theorem append_checked_eq {b : StyledBuffer} (h : aligned b) (line : Nat) (s : String)
    (st : Style) :
    appendChecked b line s st = some (b.append line s st) ∧
    aligned (b.append line s st) := by
  simp only [appendChecked, StyledBuffer.append]
  split
  · exact ⟨(putsList_checked line st s.data b 0 h).1, (putsList_checked line st s.data b 0 h).2⟩
  · exact ⟨(putsList_checked line st s.data b _ h).1, (putsList_checked line st s.data b _ h).2⟩

theorem set_style_aligned {b : StyledBuffer} (h : aligned b) (line col : Nat) (st : Style) :
    aligned (b.set_style line col st) := by
  simp only [StyledBuffer.set_style]
  split
  · rename_i hc
    have hget : b.styles.get? line = some (b.styles.getD line []) := by
      have hl : line < b.styles.length := hc.1
      exact get?_of_lt_length hl []
    exact alignedB_set_right h line _ _ hget (by simp)
  · exact h

/-- C9: totality of the styled-buffer operations.  For every aligned buffer
(the invariant `new` establishes and, as proved here, every operation
preserves — Rust's private fields make these the only reachable states) and
all arguments, each operation's panic-explicit variant succeeds and agrees
with the total embedding: `putc` first extends the row list so that row 0
exists before reading it for the tab/space padding choice, `set_style`
guards every index and silently does nothing when the addressed cell does
not exist, and `puts`, `prepend` and `append` reduce to guarded
`putc`/index reads. -/
theorem buffer_ops_never_panic (b : StyledBuffer) (line col : Nat) (chr : Char)
    (st : Style) (s : String) (h : aligned b) :
    putcChecked b line col chr st = some (b.putc line col chr st) ∧
    aligned (b.putc line col chr st) ∧
    putsChecked b line col s st = some (b.puts line col s st) ∧
    aligned (b.puts line col s st) ∧
    set_styleChecked b line col st = some (b.set_style line col st) ∧
    aligned (b.set_style line col st) ∧
    (¬(line < b.styles.length ∧ col < (b.styles.getD line []).length) →
      b.set_style line col st = b) ∧
    prependChecked b line s st = some (b.prepend line s st) ∧
    aligned (b.prepend line s st) ∧
    appendChecked b line s st = some (b.append line s st) ∧
    aligned (b.append line s st) ∧
    aligned StyledBuffer.new := by
  obtain ⟨e1, a1⟩ := putc_checked_eq h line col chr st
  obtain ⟨e2, a2⟩ := putsList_checked line st s.data b col h
  obtain ⟨e4, a4⟩ := prepend_checked_eq h line s st
  obtain ⟨e5, a5⟩ := append_checked_eq h line s st
  refine ⟨e1, a1, e2, a2, rfl, set_style_aligned h line col st, ?_, e4, a4, e5, a5, rfl⟩
  intro hc
  simp only [StyledBuffer.set_style, if_neg hc]

/-- Witness for C9 at a concrete aligned buffer and arguments exercising
the out-of-bounds `set_style` no-op. -/
theorem buffer_ops_never_panic_witness :
    aligned bufC8 ∧
    (putcChecked bufC8 5 9 'z' Style.ErrorCode =
        some (bufC8.putc 5 9 'z' Style.ErrorCode) ∧
     aligned (bufC8.putc 5 9 'z' Style.ErrorCode) ∧
     putsChecked bufC8 5 9 "hi" Style.ErrorCode =
        some (bufC8.puts 5 9 "hi" Style.ErrorCode) ∧
     aligned (bufC8.puts 5 9 "hi" Style.ErrorCode) ∧
     set_styleChecked bufC8 5 9 Style.ErrorCode =
        some (bufC8.set_style 5 9 Style.ErrorCode) ∧
     aligned (bufC8.set_style 5 9 Style.ErrorCode) ∧
     (¬(5 < bufC8.styles.length ∧ 9 < (bufC8.styles.getD 5 []).length) →
       bufC8.set_style 5 9 Style.ErrorCode = bufC8) ∧
     prependChecked bufC8 5 "hi" Style.ErrorCode =
        some (bufC8.prepend 5 "hi" Style.ErrorCode) ∧
     aligned (bufC8.prepend 5 "hi" Style.ErrorCode) ∧
     appendChecked bufC8 5 "hi" Style.ErrorCode =
        some (bufC8.append 5 "hi" Style.ErrorCode) ∧
     aligned (bufC8.append 5 "hi" Style.ErrorCode) ∧
     aligned StyledBuffer.new) :=
  ⟨by decide, buffer_ops_never_panic bufC8 5 9 'z' Style.ErrorCode "hi" (by decide)⟩

end ErrorReporter
